import Mathlib

/-!
Verification of the jellysoul subjectivity-isotype visualization core
against its specification.

The JavaScript source is shallowly embedded in Lean:

* JS floating-point numbers are modelled as real numbers (`ℝ`) where the
  code computes with `Math.sin` / `Math.sqrt`, and as rationals (`ℚ`)
  where the code only uses field arithmetic and comparisons, so that
  concrete runs can be decided by the kernel.
* JS arrays become `List`s, JS `Set`s become lists grown with a
  membership check (JS `Set` iteration order is insertion order).
* Calls to `Math.random()` are modelled by an explicit stream argument
  (`rand : ℕ → _`) giving the successive draws; the embedded function is
  the JS function once the draws are fixed.
* The JS `%` operator on integers is truncated remainder, `Int.tmod`.

Definitions mirror, per class of the source:
`EmotiveArt.generateNoiseTable` / `EmotiveArt.smoothNoise` (emotiveArt.js),
`IsotypeRenderer.generateUnifiedShape` / `IsotypeRenderer.calculateColorAdjustment`
(isotypeRenderer.js), `VisualizationApp.cosineSimilarity` /
`VisualizationApp.generateLinksOptimized` / `VisualizationApp.getSampleIndices`
(main.js), `ClusterFusion.detectClusters` (clusterFusion.js), and
`SubjectivityExtractor.extractSubjectivity` with its analyzers
(subjectivityExtractor.js).
-/

/-! ### EmotiveArt noise field (emotiveArt.js)

`generateNoiseTable(size)` fills the table with
`sin(i*0.1)*0.4 + sin(i*0.3)*0.3 + sin(i*0.7)*0.2 + Math.random()*0.1`;
the `Math.random()` draw of iteration `i` is `rand i`. -/

/-- The table entry for index `i`, given that iteration's `Math.random()`
draw `r` (a real in `[0,1)`). -/
noncomputable def noiseTableValue (i : ℕ) (r : ℝ) : ℝ :=
  Real.sin (i * 0.1) * 0.4 + Real.sin (i * 0.3) * 0.3 + Real.sin (i * 0.7) * 0.2 + r * 0.1

/-- `EmotiveArt.generateNoiseTable(size)`, with the successive
`Math.random()` draws given by `rand`. -/
noncomputable def generateNoiseTable (size : ℕ) (rand : ℕ → ℝ) : List ℝ :=
  (List.range size).map (fun i => noiseTableValue i (rand i))

/-- The constructor builds `this.noiseTable = this.generateNoiseTable(512)`. -/
def noiseTableSize : ℕ := 512

/-- `EmotiveArt.smoothNoise(x, y, seed, octaves)` over a fixed noise table.
The JS loop state is `(value, amplitude, frequency, maxValue)`; each octave
indexes the table at `abs(floor((x*frequency + seed)*100) % table.length)`
(JS `%` is truncated remainder, and its absolute value is within bounds). -/
noncomputable def smoothNoise (table : List ℝ) (x y seed : ℝ) (octaves : ℕ) : ℝ :=
  let s := (List.range octaves).foldl
    (fun (acc : ℝ × ℝ × ℝ × ℝ) _ =>
      let value := acc.1
      let amplitude := acc.2.1
      let frequency := acc.2.2.1
      let maxValue := acc.2.2.2
      let nx : ℤ := (⌊(x * frequency + seed) * 100⌋ : ℤ).tmod (table.length : ℤ)
      let ny : ℤ := (⌊(y * frequency + seed * 2) * 100⌋ : ℤ).tmod (table.length : ℤ)
      let n := (table.getD nx.natAbs 0 + table.getD ny.natAbs 0) / 2
      (value + n * amplitude, amplitude * 0.5, frequency * 1.8, maxValue + amplitude))
    (0, 1, 1, 0)
  s.1 / s.2.2.2

/-! ### Text utilities shared by SubjectivityExtractor (subjectivityExtractor.js)

Texts are `List Char`.  `new RegExp(pat, "g")` on a literal pattern counts
leftmost non-overlapping occurrences; `\b`-wrapped patterns additionally
require a non-word character (or the text edge) on both sides.  JS `\w`
is `[A-Za-z0-9_]`, `String.prototype.toLowerCase` is `Char.toLower` on
the ASCII texts involved. -/

/-- JS regex word character `\w`. -/
def isWordChar (c : Char) : Bool := c.isAlphanum || c = '_'

/-- The scanning recursions below consume at least one character per step,
so running them with fuel equal to the text length is exactly the JS
behaviour; the fuel only makes the recursion structural (the kernel can
then evaluate concrete texts). -/
def countOccsF (pat : List Char) : ℕ → List Char → ℕ
  | 0, _ => 0
  | _, [] => 0
  | fuel + 1, c :: cs =>
    if pat.isPrefixOf (c :: cs) then 1 + countOccsF pat fuel (cs.drop (pat.length - 1))
    else countOccsF pat fuel cs

/-- Leftmost non-overlapping occurrence count of the literal pattern `pat`,
as `(text.match(new RegExp(pat, "g")) || []).length` computes it for a
pattern without metacharacters.  (All patterns used are nonempty.) -/
def countOccs (pat s : List Char) : ℕ := countOccsF pat s.length s

/-- Whether a match may start here: the previous character (`none` at the
start of the text) is not a word character.  All patterns begin with a word
character, so this is JS `\b` on the left. -/
def boundaryBefore : Option Char → Bool
  | none => true
  | some c => !isWordChar c

/-- JS `\b` on the right of a match ending in a word character: the rest of
the text is empty or starts with a non-word character. -/
def boundaryAfter : List Char → Bool
  | [] => true
  | c :: _ => !isWordChar c

def countAltWBF (pats : List (List Char)) : ℕ → Option Char → List Char → ℕ
  | 0, _, _ => 0
  | _, _, [] => 0
  | fuel + 1, prev, c :: cs =>
    match (if boundaryBefore prev then
        pats.find? (fun p =>
          !p.isEmpty && p.isPrefixOf (c :: cs) && boundaryAfter ((c :: cs).drop p.length))
      else none) with
    | some p => 1 + countAltWBF pats fuel (some (p.getLastD c)) (cs.drop (p.length - 1))
    | none => countAltWBF pats fuel (some c) cs

/-- Leftmost non-overlapping count of `\b(p₁|p₂|…)\b` matches: at each
position the alternatives are tried in order, a successful match is
consumed whole.  `prev` is the character before the current position. -/
def countAltWB (pats : List (List Char)) (prev : Option Char) (s : List Char) : ℕ :=
  countAltWBF pats s.length prev s

/-- The characters the JS regex dot does not match. -/
def isJsLineTerminator (c : Char) : Bool :=
  c = '\n' || c = '\r' || c = '\u2028' || c = '\u2029'

def countRunsF : ℕ → List Char → ℕ
  | 0, _ => 0
  | _, [] => 0
  | fuel + 1, c :: cs =>
    if ¬isJsLineTerminator c ∧ 3 ≤ 1 + (cs.takeWhile (· = c)).length then
      1 + countRunsF fuel (cs.drop (1 + (cs.takeWhile (· = c)).length - 1))
    else countRunsF fuel cs

/-- Count of `/(.)\1{2,}/g` matches: maximal runs of at least three equal
characters (the dot matches no line terminator); a greedy match consumes
the whole run. -/
def countRuns (s : List Char) : ℕ := countRunsF s.length s

def runsF (p : Char → Bool) : ℕ → List Char → List (List Char)
  | 0, _ => []
  | _, [] => []
  | fuel + 1, c :: cs =>
    if p c then (c :: cs.takeWhile p) :: runsF p fuel (cs.drop (cs.takeWhile p).length)
    else runsF p fuel cs

/-- The maximal runs of characters satisfying `p` (used for
`text.match(/\b\w+\b/g)`, whose matches are exactly the maximal word-character
runs, and for counting the fields of a whitespace split). -/
def runs (p : Char → Bool) (s : List Char) : List (List Char) := runsF p s.length s

/-- The JS regex class `\s` (also the set `String.prototype.trim`
removes): ASCII whitespace, the vertical tab and form feed, and the
Unicode space and line separators. -/
def isJsWhitespace (c : Char) : Bool :=
  c.isWhitespace || c = '\x0b' || c = '\x0c' || c = '\u00a0' || c = '\u1680'
    || (0x2000 ≤ c.toNat && c.toNat ≤ 0x200a) || c = '\u2028' || c = '\u2029'
    || c = '\u202f' || c = '\u205f' || c = '\u3000' || c = '\ufeff'

/-- `text.split(/\s+/).length`: one field when the text is empty, otherwise
the maximal non-whitespace runs plus an empty leading (trailing) field when
the text starts (ends) with whitespace. -/
def splitWhitespaceCount : List Char → ℕ
  | [] => 1
  | c :: cs =>
    (runs (fun ch => !isJsWhitespace ch) (c :: cs)).length
      + (if isJsWhitespace c then 1 else 0)
      + (if isJsWhitespace (List.getLastD (c :: cs) c) then 1 else 0)

/-- `String.prototype.split` on the sentence-terminator character class
`[.!?。！？]` of the source: the fields between terminator characters
(possibly empty; the JS callers filter the blank ones out). -/
def splitOnP (p : Char → Bool) (s : List Char) : List (List Char) :=
  s.foldr (fun c acc =>
    if p c then [] :: acc
    else match acc with
      | [] => [[c]]
      | a :: as => (c :: a) :: as) [[]]

/-- The sentence-terminator class `[.!?。！？]`. -/
def isSentenceEnd (c : Char) : Bool :=
  c = '.' || c = '!' || c = '?' || c = '。' || c = '！' || c = '？'

/-- `text.toLowerCase()`. -/
def lowered (text : List Char) : List Char := text.map Char.toLower

/-- Sum of plain (no word boundary) occurrence counts over a pattern list. -/
def sumCountOccs (pats : List String) (s : List Char) : ℕ :=
  (pats.map (fun p => countOccs p.toList s)).sum

/-- Sum of `\b…\b` occurrence counts over a pattern list. -/
def sumCountWB (pats : List String) (s : List Char) : ℕ :=
  (pats.map (fun p => countAltWB [p.toList] none s)).sum

/-! ### SubjectivityExtractor data model (subjectivityExtractor.js)

Scores are real numbers (JS floats).  The optional `distribution` field
mirrors the JS objects: the zero-hit fallback objects carry no
distribution key. -/

structure NarrativeStyle where
  type : String
  score : ℝ
  distribution : Option (ℝ × ℝ × ℝ × ℝ)

structure EmotionalExpression where
  level : String
  intensity : ℝ

structure TemporalOrientation where
  orientation : String
  score : ℝ
  distribution : Option (ℝ × ℝ × ℝ)

structure SelfReference where
  level : String
  score : ℝ

structure TextComplexity where
  level : String
  score : ℝ

structure Authenticity where
  style : String
  score : ℝ
  distribution : Option (ℝ × ℝ × ℝ)

structure ExpressionMode where
  mode : String
  score : ℝ

structure SubjectivityProfile where
  narrative_style : NarrativeStyle
  emotional_expression : EmotionalExpression
  temporal_orientation : TemporalOrientation
  self_reference : SelfReference
  complexity : TextComplexity
  authenticity : Authenticity
  rhythm : ℝ
  reflection_depth : ℝ
  expression_mode : ExpressionMode
  uniqueness : ℝ

/-! ### The analyzers of SubjectivityExtractor -/

/-- Indicator phrase lists of `analyzeNarrativeStyle` (plain regexes). -/
def directIndicators : List String := ["i said", "i did", "i went", "i was", "i am"]

def reflectiveIndicators : List String :=
  ["i think", "i feel", "i believe", "i realize", "i understand", "reflection", "looking back"]

def metaphoricalIndicators : List String := ["like", "as if", "as though", "metaphor", "symbol"]

def conversationalIndicators : List String :=
  ["you know", "i mean", "like i said", "you know what", "sayin"]

/-- `SubjectivityExtractor.analyzeNarrativeStyle(text)`. -/
noncomputable def analyzeNarrativeStyle (text : List Char) : NarrativeStyle :=
  if text = [] then ⟨"conversational", 0.5, none⟩ else
  let lowerText := lowered text
  let directCount := sumCountOccs directIndicators lowerText
  let reflectiveCount := sumCountOccs reflectiveIndicators lowerText
  let metaphoricalCount := sumCountOccs metaphoricalIndicators lowerText
  let conversationalCount := sumCountOccs conversationalIndicators lowerText
  let total := directCount + reflectiveCount + metaphoricalCount + conversationalCount
  if total = 0 then ⟨"conversational", 0.5, none⟩ else
  let d : ℝ := (directCount : ℝ) / (total : ℝ)
  let r : ℝ := (reflectiveCount : ℝ) / (total : ℝ)
  let m : ℝ := (metaphoricalCount : ℝ) / (total : ℝ)
  let c : ℝ := (conversationalCount : ℝ) / (total : ℝ)
  let maxScore := max (max (max d r) m) c
  let dominantType :=
    if d = maxScore then "direct"
    else if r = maxScore then "reflective"
    else if m = maxScore then "metaphorical"
    else "conversational"
  ⟨dominantType, maxScore, some (d, r, m, c)⟩

/-- `SubjectivityExtractor.analyzeEmotionalExpression(text, emotion)`. -/
noncomputable def analyzeEmotionalExpression (text : List Char) (emotion : List ℝ) :
    EmotionalExpression :=
  if text = [] then ⟨"moderate", 0.5⟩ else
  let lowerText := lowered text
  let intenseCount := sumCountWB
    ["love", "hate", "terrible", "amazing", "devastated", "ecstatic", "horrible", "wonderful"]
    lowerText
  let moderateCount := sumCountWB
    ["happy", "sad", "angry", "worried", "excited", "disappointed"] lowerText
  let reservedCount := sumCountWB ["okay", "fine", "alright", "good", "bad"] lowerText
  let emotionIntensity : ℝ := match emotion with
    | [] => 0.5
    | x :: xs => xs.foldl max x
  let exclamationCount := (text.filter (· = '!')).length
  let repetitionPattern := countRuns text
  let totalIndicators : ℝ := (intenseCount : ℝ) * 3 + (moderateCount : ℝ) * 2
    + (reservedCount : ℝ) + (exclamationCount : ℝ) * 0.5 + (repetitionPattern : ℝ) * 0.3
  let normalizedIntensity := min 1 (totalIndicators / 20 + emotionIntensity * 0.5)
  let level :=
    if normalizedIntensity < 0.3 then "reserved"
    else if normalizedIntensity < 0.6 then "moderate"
    else if normalizedIntensity < 0.8 then "expressive"
    else "intense"
  ⟨level, normalizedIntensity⟩

/-- Indicator lists of `analyzeTemporalOrientation` (word-boundary regexes). -/
def pastIndicators : List String :=
  ["was", "were", "had", "went", "did", "said", "thought", "felt", "used to", "before", "ago",
   "back then"]

def presentIndicators : List String :=
  ["am", "is", "are", "do", "have", "now", "currently", "today", "right now"]

def futureIndicators : List String :=
  ["will", "going to", "gonna", "future", "later", "soon", "hope", "plan", "want to"]

/-- `SubjectivityExtractor.analyzeTemporalOrientation(text)`.  Note the
zero-hit (and empty-text) fallback score is `0.33`, not `0.5`. -/
noncomputable def analyzeTemporalOrientation (text : List Char) : TemporalOrientation :=
  if text = [] then ⟨"mixed", 0.33, none⟩ else
  let lowerText := lowered text
  let pastCount := sumCountWB pastIndicators lowerText
  let presentCount := sumCountWB presentIndicators lowerText
  let futureCount := sumCountWB futureIndicators lowerText
  let total := pastCount + presentCount + futureCount
  if total = 0 then ⟨"mixed", 0.33, none⟩ else
  let p : ℝ := (pastCount : ℝ) / (total : ℝ)
  let pr : ℝ := (presentCount : ℝ) / (total : ℝ)
  let f : ℝ := (futureCount : ℝ) / (total : ℝ)
  let maxScore := max (max p pr) f
  let orientation :=
    if p = maxScore then "past_focused"
    else if pr = maxScore then "present_focused"
    else if f = maxScore then "future_focused"
    else "mixed"
  ⟨orientation, maxScore, some (p, pr, f)⟩

/-- `SubjectivityExtractor.analyzeSelfReference(text)`. -/
noncomputable def analyzeSelfReference (text : List Char) : SelfReference :=
  if text = [] then ⟨"medium", 0.5⟩ else
  let lowerText := lowered text
  let firstPersonCount := sumCountOccs ["i ", "i'", "me ", "my ", "myself", "mine"] lowerText
  let wordCount := splitWhitespaceCount text
  let normalizedScore : ℝ := min 1 ((firstPersonCount : ℝ) / ((wordCount : ℝ) / 10))
  let level :=
    if normalizedScore < 0.3 then "low"
    else if normalizedScore < 0.6 then "medium"
    else "high"
  ⟨level, normalizedScore⟩

/-- `SubjectivityExtractor.analyzeComplexity(text, semantic)`. -/
noncomputable def analyzeComplexity (text : List Char) (semantic : List ℝ) : TextComplexity :=
  if text = [] then ⟨"moderate", 0.5⟩ else
  let sentences :=
    (splitOnP isSentenceEnd text).filter (fun s => s.any (fun ch => !isJsWhitespace ch))
  let avgSentenceLength : ℝ :=
    if sentences.length > 0 then
      ((sentences.map (fun s => (s.length : ℝ))).sum) / (sentences.length : ℝ)
    else 50
  let sentenceVariance : ℝ :=
    if sentences.length > 1 then
      ((sentences.map (fun s => ((s.length : ℝ) - avgSentenceLength) ^ 2)).sum)
        / (sentences.length : ℝ)
    else 0
  let words := runs isWordChar (lowered text)
  let diversity : ℝ := (words.dedup.length : ℝ) / ((max 1 words.length : ℕ) : ℝ)
  let semanticComplexity : ℝ :=
    if semantic.length > 0 then ((semantic.take 20).map (fun v => |v|)).sum / 20
    else 0.5
  let complexityScore :=
    min 1 (avgSentenceLength / 100) * 0.3 + min 1 (sentenceVariance / 1000) * 0.2
      + diversity * 0.3 + semanticComplexity * 0.2
  let level :=
    if complexityScore < 0.4 then "simple"
    else if complexityScore < 0.7 then "moderate"
    else "complex"
  ⟨level, complexityScore⟩

/-- Indicator lists of `analyzeAuthenticity`. -/
def formalIndicators : List String :=
  ["therefore", "however", "furthermore", "moreover", "consequently", "nevertheless"]

def casualIndicators : List String :=
  ["gonna", "wanna", "gotta", "yeah", "yep", "nah", "ain't", "don't", "can't"]

def intimateIndicators : List String :=
  ["i feel", "i think", "for me", "personally", "my heart", "my soul", "deeply"]

/-- `SubjectivityExtractor.analyzeAuthenticity(text)` (formal and casual
indicators are word-boundary matched, intimate phrases are plain). -/
noncomputable def analyzeAuthenticity (text : List Char) : Authenticity :=
  if text = [] then ⟨"casual", 0.5, none⟩ else
  let lowerText := lowered text
  let formalCount := sumCountWB formalIndicators lowerText
  let casualCount := sumCountWB casualIndicators lowerText
  let intimateCount := sumCountOccs intimateIndicators lowerText
  let total := formalCount + casualCount + intimateCount
  if total = 0 then ⟨"casual", 0.5, none⟩ else
  let f : ℝ := (formalCount : ℝ) / (total : ℝ)
  let c : ℝ := (casualCount : ℝ) / (total : ℝ)
  let i : ℝ := (intimateCount : ℝ) / (total : ℝ)
  let maxScore := max (max f c) i
  let dominantStyle :=
    if f = maxScore then "formal"
    else if c = maxScore then "casual"
    else "intimate"
  ⟨dominantStyle, maxScore, some (f, c, i)⟩

/-- `SubjectivityExtractor.analyzeRhythm(text)`. -/
noncomputable def analyzeRhythm (text : List Char) : ℝ :=
  if text = [] then 0.5 else
  let sentences :=
    (splitOnP isSentenceEnd text).filter (fun s => s.any (fun ch => !isJsWhitespace ch))
  if sentences.length < 2 then 0.5 else
  let avgLength : ℝ := ((sentences.map (fun s => (s.length : ℝ))).sum) / (sentences.length : ℝ)
  let variance : ℝ :=
    ((sentences.map (fun s => ((s.length : ℝ) - avgLength) ^ 2)).sum) / (sentences.length : ℝ)
  min 1 (variance / (avgLength * avgLength))

/-- Reflection phrase list of `analyzeReflectionDepth` (plain regexes). -/
def reflectionIndicators : List String :=
  ["reflect", "think about", "realize", "understand", "learn", "realized", "understood",
   "learned", "came to understand", "looking back", "in retrospect", "now i see", "i see now"]

/-- `SubjectivityExtractor.analyzeReflectionDepth(text)`; the conditional
count is the alternation `\b(if|whether|what if|suppose)\b`. -/
noncomputable def analyzeReflectionDepth (text : List Char) : ℝ :=
  if text = [] then 0.5 else
  let lowerText := lowered text
  let reflectionCount := sumCountOccs reflectionIndicators lowerText
  let questionCount := (text.filter (· = '?')).length
  let conditionalCount :=
    countAltWB ["if".toList, "whether".toList, "what if".toList, "suppose".toList] none lowerText
  let wordCount := splitWhitespaceCount text
  min 1 (((reflectionCount : ℝ) * 2 + (questionCount : ℝ) * 0.5 + (conditionalCount : ℝ))
    / ((wordCount : ℝ) / 50))

/-- Indicator lists of `analyzeExpressionMode`. -/
def directModeIndicators : List String :=
  ["i said", "i told", "i think", "i believe", "i feel", "i know"]

def indirectModeIndicators : List String :=
  ["like", "as if", "seems", "appears", "maybe", "perhaps", "might", "could"]

/-- `SubjectivityExtractor.analyzeExpressionMode(text)` (direct phrases are
plain matches, indirect words are word-boundary matched). -/
noncomputable def analyzeExpressionMode (text : List Char) : ExpressionMode :=
  if text = [] then ⟨"direct", 0.5⟩ else
  let lowerText := lowered text
  let directCount := sumCountOccs directModeIndicators lowerText
  let indirectCount := sumCountWB indirectModeIndicators lowerText
  let total := directCount + indirectCount
  if total = 0 then ⟨"direct", 0.5⟩ else
  let directScore : ℝ := (directCount : ℝ) / (total : ℝ)
  ⟨if directScore > 0.6 then "direct" else "indirect", directScore⟩

/-- `SubjectivityExtractor.calculateVariance(vector)` (returns the clamped,
normalized standard deviation). -/
noncomputable def calculateVariance (vector : List ℝ) : ℝ :=
  if vector.length = 0 then 0.5 else
  let mean := vector.sum / (vector.length : ℝ)
  let variance := (vector.map (fun val => (val - mean) ^ 2)).sum / (vector.length : ℝ)
  let stdDev := Real.sqrt variance
  min 1 (stdDev / 0.3)

/-- `SubjectivityExtractor.calculateUniqueness(text, semantic, emotion)`. -/
noncomputable def calculateUniqueness (text : List Char) (semantic emotion : List ℝ) : ℝ :=
  let semanticVariance := if semantic.length > 0 then calculateVariance semantic else 0.5
  let emotionVariance := if emotion.length > 0 then calculateVariance emotion else 0.5
  let words := runs isWordChar (lowered text)
  let lexicalDiversity : ℝ := (words.dedup.length : ℝ) / ((max 1 words.length : ℕ) : ℝ)
  let uniqueness := semanticVariance * 0.4 + emotionVariance * 0.3 + lexicalDiversity * 0.3
  min 1 (max 0 uniqueness)

/-- `SubjectivityExtractor.extractSubjectivity(node)`, after the
destructuring `text = node.text_content || ""`,
`semantic = node.isotype_signature?.semantic || []`,
`emotion = node.isotype_signature?.emotion || []`. -/
noncomputable def extractSubjectivity (text : List Char) (semantic emotion : List ℝ) :
    SubjectivityProfile where
  narrative_style := analyzeNarrativeStyle text
  emotional_expression := analyzeEmotionalExpression text emotion
  temporal_orientation := analyzeTemporalOrientation text
  self_reference := analyzeSelfReference text
  complexity := analyzeComplexity text semantic
  authenticity := analyzeAuthenticity text
  rhythm := analyzeRhythm text
  reflection_depth := analyzeReflectionDepth text
  expression_mode := analyzeExpressionMode text
  uniqueness := calculateUniqueness text semantic emotion

/-- The profile `extractSubjectivity` returns for empty text and empty
vectors (the fallback of every analyzer; `uniqueness` evaluates to
`0.5·0.4 + 0.5·0.3 + 0·0.3 = 0.35`). -/
noncomputable def defaultProfile : SubjectivityProfile where
  narrative_style := ⟨"conversational", 0.5, none⟩
  emotional_expression := ⟨"moderate", 0.5⟩
  temporal_orientation := ⟨"mixed", 0.33, none⟩
  self_reference := ⟨"medium", 0.5⟩
  complexity := ⟨"moderate", 0.5⟩
  authenticity := ⟨"casual", 0.5, none⟩
  rhythm := 0.5
  reflection_depth := 0.5
  expression_mode := ⟨"direct", 0.5⟩
  uniqueness := 0.35

/-! ### IsotypeRenderer geometry and color policy (isotypeRenderer.js) -/

structure ShapePoint where
  x : ℝ
  y : ℝ
  angle : ℝ

structure ShapeDeformation where
  regularity : ℝ
  deformation : ℝ
  asymmetry : ℝ

/-- `IsotypeRenderer.generateUnifiedShape(x, y, radius, signature)`: 32
points at angles `2πi/32`, each displaced from the center along its angle
by `radius · (1 + regularityNoise + deformationNoise + asymmetryNoise)`. -/
noncomputable def generateUnifiedShape (x y radius : ℝ) (deformation : ShapeDeformation) :
    List ShapePoint :=
  (List.range 32).map (fun (i : ℕ) =>
    let angle : ℝ := Real.pi * 2 * i / 32
    let regularityNoise := Real.sin (angle * 4) * (1 - deformation.regularity) * 0.1
    let deformationNoise := Real.sin (angle * 3 + Real.pi / 4) * deformation.deformation
    let asymmetryNoise := Real.sin (angle * 2) * deformation.asymmetry
    let distance := radius * (1 + regularityNoise + deformationNoise + asymmetryNoise)
    ⟨x + Real.cos angle * distance, y + Real.sin angle * distance, angle⟩)

structure ColorAdjustment where
  saturation : ℝ
  hueShift : ℝ
  opacity : ℝ
  brightness : ℝ

/-- `IsotypeRenderer.calculateColorAdjustment(subjectivity)`: saturation,
hue shift and brightness are the identity constants; only opacity varies,
as `min(1, 0.7 + emotionalExpression.intensity * 0.25)`. -/
noncomputable def calculateColorAdjustment (subjectivity : SubjectivityProfile) :
    ColorAdjustment :=
  let emotionalExpression := subjectivity.emotional_expression
  let opacity : ℝ := 0.7 + emotionalExpression.intensity * 0.25
  { saturation := 1.0
    hueShift := 0
    opacity := min 1 opacity
    brightness := min 1.1 1.0 }

/-! ### VisualizationApp.cosineSimilarity (main.js)

The JS loop `for (let i = 0; i < vec1.length; i += step)` visits exactly
the indices `< vec1.length` divisible by `step` (`step` is `2` for vectors
longer than 500 entries, else `1`); after the loop the three accumulators
are scaled by `step` when `step > 1`.  The JS null-vector guard
(`!vec1 || !vec2`) cannot fire in the embedding, where a vector is always
a list; the mismatched-length guard is kept. -/

/-- The indices the sampling loop visits. -/
def sampleIdxs (len step : ℕ) : List ℕ :=
  (List.range len).filter (fun i => i % step = 0)

/-- `VisualizationApp.cosineSimilarity(vec1, vec2)`. -/
noncomputable def cosineSimilarity (vec1 vec2 : List ℝ) : ℝ :=
  if vec1.length ≠ vec2.length then 0
  else
    let step := if 500 < vec1.length then 2 else 1
    let idx := sampleIdxs vec1.length step
    let dotProduct := (idx.map (fun i => vec1.getD i 0 * vec2.getD i 0)).sum
    let norm1 := (idx.map (fun i => vec1.getD i 0 * vec1.getD i 0)).sum
    let norm2 := (idx.map (fun i => vec2.getD i 0 * vec2.getD i 0)).sum
    let dotProduct := if 1 < step then dotProduct * step else dotProduct
    let norm1 := if 1 < step then norm1 * step else norm1
    let norm2 := if 1 < step then norm2 * step else norm2
    let denominator := Real.sqrt norm1 * Real.sqrt norm2
    if denominator = 0 then 0 else dotProduct / denominator

/-- A nonzero vector of length `502 > 500` whose only nonzero entry sits at
the odd index `1`, which the every-other-dimension sampling never reads. -/
noncomputable def oddOnlyVec : List ℝ := 0 :: 1 :: List.replicate 500 0

/-- The equal-length core of `cosineSimilarity`, with the sampling step an
explicit argument and the `step > 1` compensation applied uniformly
(multiplying by `step = 1` is the identity); proved equal to
`cosineSimilarity` below and used to reason about it. -/
noncomputable def cosAux (a b : List ℝ) (step : ℕ) : ℝ :=
  let idx := sampleIdxs a.length step
  let d := ((idx.map (fun i => a.getD i 0 * b.getD i 0)).sum) * step
  let n1 := ((idx.map (fun i => a.getD i 0 * a.getD i 0)).sum) * step
  let n2 := ((idx.map (fun i => b.getD i 0 * b.getD i 0)).sum) * step
  if Real.sqrt n1 * Real.sqrt n2 = 0 then 0 else d / (Real.sqrt n1 * Real.sqrt n2)

/-! ### VisualizationApp.generateLinksOptimized / getSampleIndices (main.js)

Subjects are their indices `0 … n-1`.  `calculateSimilarity(node_i, node_j,
dimension)` — cosine similarity of the nodes' chosen feature vectors — is
abstracted into the argument `sim : ℕ → ℕ → ℚ` (its float value appears
only in the threshold comparison and the descending sort, so the builder's
graph structure is a function of those values); `cosineSimilarity` itself
is embedded separately above.  Similarities and the threshold are
rationals so that concrete runs are kernel-decidable.  `Math.floor
(Math.random() * n)` draws inside `getSampleIndices` are the stream
`rand : ℕ → ℕ` (values below `n` in reality; nothing here depends on
that).  The JS `linkSet` of string keys `"i-j"` (`i < j`) is the list of
canonical pairs `linkKey i j`. -/

structure Link where
  source : ℕ
  target : ℕ
  similarity : ℚ
  deriving DecidableEq

/-- The canonical unordered pair key `i < j ? "i-j" : "j-i"`. -/
def linkKey (i j : ℕ) : ℕ × ℕ := if i < j then (i, j) else (j, i)

/-- The `maxLinksPerNode` tier of `generateLinksOptimized`.  (For `n = 0`
the JS value is `-1`; natural subtraction gives `0`, and no links are
generated either way since the node loop is empty.) -/
def maxLinksPerNode (n : ℕ) : ℕ :=
  if n ≤ 20 then min 10 (n - 1)
  else if n ≤ 50 then 8
  else 5

/-- The `sampleSize` tier of `generateLinksOptimized`. -/
def sampleSizeFor (n : ℕ) : ℕ :=
  if n ≤ 20 then n
  else if n ≤ 50 then min 30 n
  else min 50 n

/-- The local-window part of `getSampleIndices`: indices
`max(0, i-windowSize) ≤ j < min(n, i+windowSize)` with `j ≠ i`, where
`windowSize = min(20, n)`. -/
def windowIndices (n currentIndex : ℕ) : List ℕ :=
  let windowSize := min 20 n
  let start := currentIndex - windowSize
  let stop := min n (currentIndex + windowSize)
  (List.range' start (stop - start)).filter (fun i => i ≠ currentIndex)

/-- `VisualizationApp.getSampleIndices(currentIndex, sampleSize)`: the
window indices, then random draws added (skipping `currentIndex` and
duplicates) while the set stays below `sampleSize`; `randomCount` is
computed once before the loop (negative in JS — equivalently `0` by
natural subtraction — when the window alone exceeds `sampleSize`). -/
def getSampleIndices (n currentIndex sampleSize : ℕ) (rand : ℕ → ℕ) : List ℕ :=
  let base := windowIndices n currentIndex
  let randomCount := sampleSize - base.length
  (List.range randomCount).foldl (fun acc k =>
    if acc.length < sampleSize then
      if rand k ≠ currentIndex ∧ rand k ∉ acc then acc ++ [rand k] else acc
    else acc) base

/-- Stable insertion of a candidate into a list sorted by descending
similarity: it goes after every element with strictly greater similarity
and before the first with equal or smaller similarity. -/
def insertDesc (c : ℕ × ℚ) : List (ℕ × ℚ) → List (ℕ × ℚ)
  | [] => [c]
  | d :: ds => if c.2 < d.2 then d :: insertDesc c ds else c :: d :: ds

/-- Stable sort by descending similarity, modelling
`candidates.sort((a, b) => b.similarity - a.similarity)`: a stable sort's
output is uniquely determined by the comparator, so this insertion sort
returns exactly what the (stable) JS `Array.prototype.sort` returns. -/
def sortDesc : List (ℕ × ℚ) → List (ℕ × ℚ)
  | [] => []
  | c :: cs => insertDesc c (sortDesc cs)

/-- The body of the `for (let i = 0; …)` node loop of
`generateLinksOptimized`: collect candidates from the sample (skipping
`j = i`, already-keyed pairs and sub-threshold similarities), sort them by
descending similarity, keep the first `maxLinks`, and push each edge whose
canonical key is still unused.  The state is `(links, linkSet)`. -/
def linkStep (sim : ℕ → ℕ → ℚ) (threshold : ℚ) (rand : ℕ → ℕ → ℕ)
    (n maxLinks sampleSize : ℕ) (st : List Link × List (ℕ × ℕ)) (i : ℕ) :
    List Link × List (ℕ × ℕ) :=
  let sampleIndices := getSampleIndices n i sampleSize (rand i)
  let candidates := sampleIndices.foldl (fun cand j =>
    if i = j then cand
    else if linkKey i j ∈ st.2 then cand
    else if threshold ≤ sim i j then cand ++ [(j, sim i j)] else cand) []
  let sorted := sortDesc candidates
  let top := sorted.take maxLinks
  top.foldl (fun st2 c =>
    if linkKey i c.1 ∈ st2.2 then st2
    else (st2.1 ++ [⟨i, c.1, c.2⟩], st2.2 ++ [linkKey i c.1])) st

/-- `VisualizationApp.generateLinksOptimized()` over `n` subjects. -/
def generateLinksOptimized (n : ℕ) (sim : ℕ → ℕ → ℚ) (threshold : ℚ)
    (rand : ℕ → ℕ → ℕ) : List Link :=
  ((List.range n).foldl
    (linkStep sim threshold rand n (maxLinksPerNode n) (sampleSizeFor n)) ([], [])).1

/-- The canonical key of an edge. -/
def keyOf (l : Link) : ℕ × ℕ := linkKey l.source l.target

/-- The number of edges of `L` whose `source` is subject `j` (the edges
pushed during `j`'s own iteration of the node loop). -/
def countSrc (j : ℕ) (L : List Link) : ℕ := (L.filter (fun l => l.source = j)).length

/-- Exact cosine similarity of the unit vector `e₀` with
`vₖ = aₖ·e₀ + bₖ·eₖ`, where `(aₖ, bₖ) = ((1-t²)/(1+t²), 2t/(1+t²))` for
`t = (33+k)/200` is a rational point of the unit circle: `aHub k`
decreases in `k`, lies in `[0.9, 0.95)` for `k = 1 … 11`, and the pairwise
similarities `aHub i · aHub k` all lie below `0.9`. -/
def aHub (k : ℕ) : ℚ :=
  (40000 - ((33 + k : ℚ)) ^ 2) / (40000 + ((33 + k : ℚ)) ^ 2)

/-- The similarity matrix of the 12-subject hub configuration realized by
the vectors above: subject `0` is similar to everyone
(`sim 0 k = aHub k ≥ 0.9`), all other pairs fall below the `0.9`
threshold (`sim i k = aHub i · aHub k < 0.9`). -/
def simHub (i j : ℕ) : ℚ :=
  if i = j then 1
  else if i = 0 then aHub j
  else if j = 0 then aHub i
  else aHub i * aHub j

/-- The second coordinate of the rational unit-circle point realizing
`aHub`: `aHub k ^ 2 + bHub k ^ 2 = 1`. -/
def bHub (k : ℕ) : ℚ := 400 * (33 + k : ℚ) / (40000 + ((33 + k : ℚ)) ^ 2)

/-- Entry `m` of the `k`-th hub vector: subject `0` is the unit vector
`e₀`; subject `k ≥ 1` is `aHub k · e₀ + bHub k · eₖ`. -/
noncomputable def hubEntry (k m : ℕ) : ℝ :=
  if k = 0 then (if m = 0 then 1 else 0)
  else if m = 0 then ((aHub k : ℚ) : ℝ)
  else if m = k then ((bHub k : ℚ) : ℝ)
  else 0

/-- The twelve explicit unit vectors whose exact cosine similarities are
`simHub` (proved below): they witness that the hub similarity structure of
the C3 counterexample is realizable by `cosineSimilarity` itself. -/
noncomputable def hubVec (k : ℕ) : List ℝ := (List.range 12).map (fun m => hubEntry k m)

/-! ### ClusterFusion.detectClusters (clusterFusion.js)

Nodes are indices into the node array; the `nodeIndexMap` lookup succeeds
exactly for a neighbor index below `n`.  The JS `while (queue.length > 0)`
loop is run with fuel `n`: every queue insertion (the seed included) marks
a previously unvisited node visited, so at most `n` pops ever happen and
the fuel never runs out before the queue drains. -/

/-- The neighbor of `c` through `link` (`link.source === currentNode` /
`link.target === currentNode` in JS, `none` when the link does not touch
`c`; a self-loop at `c` yields `c` itself, which is already visited). -/
def neighborOf (link : Link) (c : ℕ) : Option ℕ :=
  if link.source = c then some link.target
  else if link.target = c then some link.source
  else none

/-- One pop of the BFS queue: scan every link from the popped node `c`,
mark each fresh, in-range neighbor above threshold visited, append it to
the cluster and enqueue it.  State: `(visited, cluster, queue)`. -/
def scanLinks (links : List Link) (threshold : ℚ) (n c : ℕ)
    (st : List ℕ × List ℕ × List ℕ) : List ℕ × List ℕ × List ℕ :=
  links.foldl (fun st link =>
    match neighborOf link c with
    | none => st
    | some nb =>
      if nb < n ∧ nb ∉ st.1 ∧ threshold ≤ link.similarity then
        (st.1 ++ [nb], st.2.1 ++ [nb], st.2.2 ++ [nb])
      else st) st

/-- The fueled BFS loop of `detectClusters`. -/
def bfsClusters (links : List Link) (threshold : ℚ) (n : ℕ) :
    ℕ → List ℕ × List ℕ × List ℕ → List ℕ × List ℕ
  | 0, st => (st.1, st.2.1)
  | fuel + 1, st =>
    match st.2.2 with
    | [] => (st.1, st.2.1)
    | c :: rest =>
      bfsClusters links threshold n fuel (scanLinks links threshold n c (st.1, st.2.1, rest))

/-- `ClusterFusion.detectClusters(nodes, links, similarityThreshold)`:
one BFS per yet-unvisited seed node, keeping only clusters with at least
two members. -/
def detectClusters (n : ℕ) (links : List Link) (threshold : ℚ) : List (List ℕ) :=
  ((List.range n).foldl (fun st idx =>
    if idx ∈ st.1 then st
    else
      let r := bfsClusters links threshold n n (st.1 ++ [idx], [idx], [idx])
      (r.1, if 2 ≤ r.2.length then st.2 ++ [r.2] else st.2)) ([], [])).2

/-- The edge list of three subjects with pairwise similarity `1`. -/
def triangleLinks : List Link := [⟨0, 1, 1⟩, ⟨0, 2, 1⟩, ⟨1, 2, 1⟩]

/-! ### Theorems -/

theorem getD_map_range {α : Type} (f : ℕ → α) (d : α) {i n : ℕ} (h : i < n) :
    (((List.range n).map f).getD i d) = f i := by
  rw [List.getD_eq_getElem?_getD]
  simp [List.getElem?_map, List.getElem?_range, h]

theorem generateNoiseTable_congr {size : ℕ} {r₁ r₂ : ℕ → ℝ}
    (h : ∀ i < size, r₁ i = r₂ i) :
    generateNoiseTable size r₁ = generateNoiseTable size r₂ := by
  unfold generateNoiseTable
  refine List.map_congr_left ?_
  intro i hi
  rw [h i (List.mem_range.mp hi)]

theorem smoothNoise_one_octave (table : List ℝ) :
    smoothNoise table 0 0 0 1 = table.getD 0 0 := by
  simp only [smoothNoise, show List.range 1 = [0] from rfl, List.foldl_cons, List.foldl_nil]
  norm_num

/-- **C1.** `EmotiveArt.generateNoiseTable` adds `Math.random() * 0.1` to
every table entry, so two constructions of `EmotiveArt` whose random draws
differ (e.g. all draws `0` in one process run, all draws `1/2` in another)
yield different tables, and `smoothNoise` returns different values for the
same `(x, y, seed, octaves)`: here `smoothNoise(0, 0, 0, 1)` evaluates to
`0` in the first run and to `1/20` in the second.  This contradicts the
spec's claim that the lookup table comes from a fixed closed-form formula
with no randomness and that values are identical across process runs. -/
theorem smoothNoise_differs_across_runs :
    smoothNoise (generateNoiseTable noiseTableSize (fun _ => 0)) 0 0 0 1 = 0 ∧
    smoothNoise (generateNoiseTable noiseTableSize (fun _ => 1/2)) 0 0 0 1 = 1/20 ∧
    (0 : ℝ) ≠ 1/20 := by
  have h512 : (0 : ℕ) < noiseTableSize := by norm_num [noiseTableSize]
  refine ⟨?_, ?_, by norm_num⟩
  · rw [smoothNoise_one_octave, generateNoiseTable, getD_map_range _ _ h512]
    simp [noiseTableValue]
  · rw [smoothNoise_one_octave, generateNoiseTable, getD_map_range _ _ h512]
    simp [noiseTableValue]
    norm_num

theorem generateUnifiedShape_getD (x y radius : ℝ) (d : ShapeDeformation) {i : ℕ}
    (h : i < 32) :
    (generateUnifiedShape x y radius d).getD i ⟨0, 0, 0⟩ =
      ⟨x + Real.cos (Real.pi * 2 * i / 32) *
          (radius * (1 + Real.sin (Real.pi * 2 * i / 32 * 4) * (1 - d.regularity) * 0.1
            + Real.sin (Real.pi * 2 * i / 32 * 3 + Real.pi / 4) * d.deformation
            + Real.sin (Real.pi * 2 * i / 32 * 2) * d.asymmetry)),
       y + Real.sin (Real.pi * 2 * i / 32) *
          (radius * (1 + Real.sin (Real.pi * 2 * i / 32 * 4) * (1 - d.regularity) * 0.1
            + Real.sin (Real.pi * 2 * i / 32 * 3 + Real.pi / 4) * d.deformation
            + Real.sin (Real.pi * 2 * i / 32 * 2) * d.asymmetry)),
       Real.pi * 2 * i / 32⟩ := by
  unfold generateUnifiedShape
  exact getD_map_range _ _ h

/-- **C6.** `IsotypeRenderer.generateUnifiedShape` returns exactly 32
points; the `i`-th lies along direction `θᵢ = 2πi/32` at signed distance
`radius · (1 + sin(4θᵢ)(1-regularity)·0.1 + sin(3θᵢ+π/4)·deformation +
sin(2θᵢ)·asymmetry)` from the center (so its Euclidean distance from the
center is the absolute value of that quantity); the angles start at `0`,
are evenly spaced by `2π/32`, strictly increase, and stay below `2π`. -/
theorem generateUnifiedShape_outline (x y radius : ℝ) (d : ShapeDeformation) :
    (generateUnifiedShape x y radius d).length = 32 ∧
    (∀ i : ℕ, i < 32 →
      (generateUnifiedShape x y radius d).getD i ⟨0, 0, 0⟩ =
        ⟨x + Real.cos (2 * Real.pi * i / 32) *
            (radius * (1 + Real.sin (4 * (2 * Real.pi * i / 32)) * (1 - d.regularity) * 0.1
              + Real.sin (3 * (2 * Real.pi * i / 32) + Real.pi / 4) * d.deformation
              + Real.sin (2 * (2 * Real.pi * i / 32)) * d.asymmetry)),
         y + Real.sin (2 * Real.pi * i / 32) *
            (radius * (1 + Real.sin (4 * (2 * Real.pi * i / 32)) * (1 - d.regularity) * 0.1
              + Real.sin (3 * (2 * Real.pi * i / 32) + Real.pi / 4) * d.deformation
              + Real.sin (2 * (2 * Real.pi * i / 32)) * d.asymmetry)),
         2 * Real.pi * i / 32⟩) ∧
    (∀ i : ℕ, i < 32 →
      Real.sqrt ((((generateUnifiedShape x y radius d).getD i ⟨0, 0, 0⟩).x - x) ^ 2
          + (((generateUnifiedShape x y radius d).getD i ⟨0, 0, 0⟩).y - y) ^ 2)
        = |radius * (1 + Real.sin (4 * (2 * Real.pi * i / 32)) * (1 - d.regularity) * 0.1
              + Real.sin (3 * (2 * Real.pi * i / 32) + Real.pi / 4) * d.deformation
              + Real.sin (2 * (2 * Real.pi * i / 32)) * d.asymmetry)|) ∧
    ((generateUnifiedShape x y radius d).getD 0 ⟨0, 0, 0⟩).angle = 0 ∧
    (∀ i j : ℕ, i < j → j < 32 →
      ((generateUnifiedShape x y radius d).getD i ⟨0, 0, 0⟩).angle
        < ((generateUnifiedShape x y radius d).getD j ⟨0, 0, 0⟩).angle) ∧
    (∀ i : ℕ, i < 32 →
      ((generateUnifiedShape x y radius d).getD i ⟨0, 0, 0⟩).angle < 2 * Real.pi) ∧
    (∀ i : ℕ, i + 1 < 32 →
      ((generateUnifiedShape x y radius d).getD (i + 1) ⟨0, 0, 0⟩).angle
          - ((generateUnifiedShape x y radius d).getD i ⟨0, 0, 0⟩).angle = 2 * Real.pi / 32) := by
  have hpt : ∀ i : ℕ, i < 32 →
      (generateUnifiedShape x y radius d).getD i ⟨0, 0, 0⟩ =
        ⟨x + Real.cos (2 * Real.pi * i / 32) *
            (radius * (1 + Real.sin (4 * (2 * Real.pi * i / 32)) * (1 - d.regularity) * 0.1
              + Real.sin (3 * (2 * Real.pi * i / 32) + Real.pi / 4) * d.deformation
              + Real.sin (2 * (2 * Real.pi * i / 32)) * d.asymmetry)),
         y + Real.sin (2 * Real.pi * i / 32) *
            (radius * (1 + Real.sin (4 * (2 * Real.pi * i / 32)) * (1 - d.regularity) * 0.1
              + Real.sin (3 * (2 * Real.pi * i / 32) + Real.pi / 4) * d.deformation
              + Real.sin (2 * (2 * Real.pi * i / 32)) * d.asymmetry)),
         2 * Real.pi * i / 32⟩ := by
    intro i hi
    rw [generateUnifiedShape_getD x y radius d hi]
    have h4 : Real.pi * 2 * (i : ℝ) / 32 * 4 = 4 * (2 * Real.pi * i / 32) := by ring
    have h3 : Real.pi * 2 * (i : ℝ) / 32 * 3 + Real.pi / 4
        = 3 * (2 * Real.pi * i / 32) + Real.pi / 4 := by ring
    have h2 : Real.pi * 2 * (i : ℝ) / 32 * 2 = 2 * (2 * Real.pi * i / 32) := by ring
    have h1 : Real.pi * 2 * (i : ℝ) / 32 = 2 * Real.pi * i / 32 := by ring
    rw [h4, h3, h2, h1]
  refine ⟨?_, hpt, ?_, ?_, ?_, ?_, ?_⟩
  · simp [generateUnifiedShape]
  · intro i hi
    rw [hpt i hi]
    have hD : (x + Real.cos (2 * Real.pi * i / 32) *
          (radius * (1 + Real.sin (4 * (2 * Real.pi * i / 32)) * (1 - d.regularity) * 0.1
            + Real.sin (3 * (2 * Real.pi * i / 32) + Real.pi / 4) * d.deformation
            + Real.sin (2 * (2 * Real.pi * i / 32)) * d.asymmetry)) - x) ^ 2
        + (y + Real.sin (2 * Real.pi * i / 32) *
          (radius * (1 + Real.sin (4 * (2 * Real.pi * i / 32)) * (1 - d.regularity) * 0.1
            + Real.sin (3 * (2 * Real.pi * i / 32) + Real.pi / 4) * d.deformation
            + Real.sin (2 * (2 * Real.pi * i / 32)) * d.asymmetry)) - y) ^ 2
        = (radius * (1 + Real.sin (4 * (2 * Real.pi * i / 32)) * (1 - d.regularity) * 0.1
            + Real.sin (3 * (2 * Real.pi * i / 32) + Real.pi / 4) * d.deformation
            + Real.sin (2 * (2 * Real.pi * i / 32)) * d.asymmetry)) ^ 2
          * ((Real.sin (2 * Real.pi * i / 32)) ^ 2 + (Real.cos (2 * Real.pi * i / 32)) ^ 2) := by
      ring
    rw [hD, Real.sin_sq_add_cos_sq, mul_one, Real.sqrt_sq_eq_abs]
  · rw [hpt 0 (by norm_num)]
    norm_num
  · intro i j hij hj
    rw [hpt i (lt_trans hij hj), hpt j hj]
    have hc : (i : ℝ) < (j : ℝ) := by exact_mod_cast hij
    have hp := Real.pi_pos
    show 2 * Real.pi * i / 32 < 2 * Real.pi * j / 32
    have := mul_lt_mul_of_pos_left hc (by linarith : (0 : ℝ) < 2 * Real.pi)
    linarith
  · intro i hi
    rw [hpt i hi]
    have hc : (i : ℝ) ≤ 31 := by exact_mod_cast Nat.lt_succ_iff.mp hi
    have hp := Real.pi_pos
    show 2 * Real.pi * i / 32 < 2 * Real.pi
    nlinarith
  · intro i hi
    rw [hpt (i + 1) hi, hpt i (by omega)]
    show 2 * Real.pi * (i + 1 : ℕ) / 32 - 2 * Real.pi * i / 32 = 2 * Real.pi / 32
    push_cast
    ring

theorem generateUnifiedShape_outline_witness :
    (generateUnifiedShape 0 0 1 ⟨0.8, 0.1, 0.15⟩).length = 32 ∧
    ((generateUnifiedShape 0 0 1 ⟨0.8, 0.1, 0.15⟩).getD 0 ⟨0, 0, 0⟩).angle = 0 ∧
    ((generateUnifiedShape 0 0 1 ⟨0.8, 0.1, 0.15⟩).getD 0 ⟨0, 0, 0⟩).angle
      < ((generateUnifiedShape 0 0 1 ⟨0.8, 0.1, 0.15⟩).getD 1 ⟨0, 0, 0⟩).angle ∧
    ((generateUnifiedShape 0 0 1 ⟨0.8, 0.1, 0.15⟩).getD 31 ⟨0, 0, 0⟩).angle < 2 * Real.pi := by
  have h := generateUnifiedShape_outline 0 0 1 ⟨0.8, 0.1, 0.15⟩
  exact ⟨h.1, h.2.2.2.1, h.2.2.2.2.1 0 1 (by norm_num) (by norm_num),
    h.2.2.2.2.2.1 31 (by norm_num)⟩

theorem le_foldl_max (xs : List ℝ) (a : ℝ) : a ≤ xs.foldl max a := by
  induction xs generalizing a with
  | nil => exact le_refl a
  | cons y ys ih => exact le_trans (le_max_left a y) (ih (max a y))

/-- **C7.** `IsotypeRenderer.calculateColorAdjustment` holds saturation,
hue shift and brightness at their identity values (`1`, `0`, `1`) for every
profile — so two profiles differing only in `emotionalExpression.intensity`
yield adjustments differing only in opacity, and the base hue and
saturation are never altered.  For intensity in `[0, 1]` (the extractor
produces only such intensities when the emotion scores are nonnegative,
last conjunct) the opacity equals `0.7 + intensity·0.25` and lies in
`[0.7, 0.95]`. -/
theorem calculateColorAdjustment_policy :
    (∀ s₁ s₂ : SubjectivityProfile,
      (calculateColorAdjustment s₁).saturation = (calculateColorAdjustment s₂).saturation ∧
      (calculateColorAdjustment s₁).hueShift = (calculateColorAdjustment s₂).hueShift ∧
      (calculateColorAdjustment s₁).brightness = (calculateColorAdjustment s₂).brightness) ∧
    (∀ s : SubjectivityProfile,
      (calculateColorAdjustment s).saturation = 1 ∧
      (calculateColorAdjustment s).hueShift = 0 ∧
      (calculateColorAdjustment s).brightness = 1) ∧
    (∀ s : SubjectivityProfile,
      0 ≤ s.emotional_expression.intensity → s.emotional_expression.intensity ≤ 1 →
      (calculateColorAdjustment s).opacity = 0.7 + s.emotional_expression.intensity * 0.25 ∧
      0.7 ≤ (calculateColorAdjustment s).opacity ∧
      (calculateColorAdjustment s).opacity ≤ 0.95) ∧
    (∀ (text : List Char) (emotion : List ℝ), (∀ e ∈ emotion, 0 ≤ e) →
      0 ≤ (analyzeEmotionalExpression text emotion).intensity ∧
      (analyzeEmotionalExpression text emotion).intensity ≤ 1) := by
  have hopacity : ∀ s : SubjectivityProfile,
      0 ≤ s.emotional_expression.intensity → s.emotional_expression.intensity ≤ 1 →
      (calculateColorAdjustment s).opacity = 0.7 + s.emotional_expression.intensity * 0.25 ∧
      0.7 ≤ (calculateColorAdjustment s).opacity ∧
      (calculateColorAdjustment s).opacity ≤ 0.95 := by
    intro s h0 h1
    have heq : (calculateColorAdjustment s).opacity
        = 0.7 + s.emotional_expression.intensity * 0.25 := by
      show min 1 (0.7 + s.emotional_expression.intensity * 0.25)
          = 0.7 + s.emotional_expression.intensity * 0.25
      rw [min_eq_right (by nlinarith)]
    exact ⟨heq, by rw [heq]; nlinarith, by rw [heq]; nlinarith⟩
  refine ⟨fun s₁ s₂ => ⟨rfl, rfl, rfl⟩,
    fun s => ⟨by show (1.0 : ℝ) = 1; norm_num, rfl, by show min (1.1 : ℝ) 1.0 = 1; norm_num⟩,
    hopacity, ?_⟩
  intro text emotion hpos
  by_cases htext : text = []
  · subst htext
    constructor <;> norm_num [analyzeEmotionalExpression]
  · unfold analyzeEmotionalExpression
    rw [if_neg htext]
    dsimp only
    have hA : (0 : ℝ) ≤ (sumCountWB
          ["love", "hate", "terrible", "amazing", "devastated", "ecstatic", "horrible",
            "wonderful"] (lowered text) : ℝ) * 3
        + (sumCountWB ["happy", "sad", "angry", "worried", "excited", "disappointed"]
            (lowered text) : ℝ) * 2
        + (sumCountWB ["okay", "fine", "alright", "good", "bad"] (lowered text) : ℝ)
        + ((text.filter (· = '!')).length : ℝ) * 0.5 + (countRuns text : ℝ) * 0.3 := by
      positivity
    cases emotion with
    | nil =>
      refine ⟨le_min (by norm_num) ?_, min_le_left _ _⟩
      nlinarith [hA]
    | cons x xs =>
      have hM : (0 : ℝ) ≤ xs.foldl max x :=
        le_trans (hpos x (List.mem_cons_self x xs)) (le_foldl_max xs x)
      refine ⟨le_min (by norm_num) ?_, min_le_left _ _⟩
      nlinarith [hA, hM]

theorem calculateColorAdjustment_policy_witness :
    (calculateColorAdjustment defaultProfile).saturation = 1 ∧
    (calculateColorAdjustment defaultProfile).hueShift = 0 ∧
    (calculateColorAdjustment defaultProfile).brightness = 1 ∧
    (calculateColorAdjustment defaultProfile).opacity = 0.7 + 0.5 * 0.25 ∧
    0.7 ≤ (calculateColorAdjustment defaultProfile).opacity ∧
    (calculateColorAdjustment defaultProfile).opacity ≤ 0.95 ∧
    0 ≤ (analyzeEmotionalExpression [] []).intensity := by
  have h := calculateColorAdjustment_policy
  have hi : defaultProfile.emotional_expression.intensity = 0.5 := rfl
  have h3 := h.2.2.1 defaultProfile (by rw [hi]; norm_num) (by rw [hi]; norm_num)
  exact ⟨(h.2.1 defaultProfile).1, (h.2.1 defaultProfile).2.1, (h.2.1 defaultProfile).2.2,
    by rw [h3.1, hi], h3.2.1, h3.2.2, (h.2.2.2 [] [] (by intro e he; cases he)).1⟩

theorem cosineSimilarity_eq_cosAux {a b : List ℝ} (h : a.length = b.length) :
    cosineSimilarity a b = cosAux a b (if 500 < a.length then 2 else 1) := by
  unfold cosineSimilarity cosAux
  rw [if_neg (by omega)]
  by_cases h5 : 500 < a.length
  · rw [if_pos h5]
    norm_num
  · rw [if_neg h5]
    norm_num

theorem cosAux_comm {a b : List ℝ} (h : a.length = b.length) (step : ℕ) :
    cosAux a b step = cosAux b a step := by
  unfold cosAux
  dsimp only
  rw [← h]
  have hdot : ((sampleIdxs a.length step).map (fun i => b.getD i 0 * a.getD i 0)).sum
      = ((sampleIdxs a.length step).map (fun i => a.getD i 0 * b.getD i 0)).sum :=
    congrArg List.sum (List.map_congr_left (fun i _ => mul_comm _ _))
  rw [hdot,
    mul_comm
      (Real.sqrt (((sampleIdxs a.length step).map (fun i => b.getD i 0 * b.getD i 0)).sum * step))
      (Real.sqrt (((sampleIdxs a.length step).map (fun i => a.getD i 0 * a.getD i 0)).sum * step))]

theorem cosAux_self {a : List ℝ} {step : ℕ} (hstep : 0 < step)
    (hx : ∃ i ∈ sampleIdxs a.length step, a.getD i 0 ≠ 0) : cosAux a a step = 1 := by
  unfold cosAux
  dsimp only
  obtain ⟨i, hi, hne⟩ := hx
  have hnn : ∀ x ∈ (sampleIdxs a.length step).map (fun i => a.getD i 0 * a.getD i 0), 0 ≤ x := by
    intro x hxm
    obtain ⟨j, _, rfl⟩ := List.mem_map.mp hxm
    exact mul_self_nonneg _
  have hmem : a.getD i 0 * a.getD i 0
      ∈ (sampleIdxs a.length step).map (fun i => a.getD i 0 * a.getD i 0) :=
    List.mem_map_of_mem _ hi
  have hpos : 0 < ((sampleIdxs a.length step).map (fun i => a.getD i 0 * a.getD i 0)).sum :=
    lt_of_lt_of_le (mul_self_pos.mpr hne) (List.single_le_sum hnn _ hmem)
  have hSstep : (0 : ℝ)
      < ((sampleIdxs a.length step).map (fun i => a.getD i 0 * a.getD i 0)).sum * step :=
    mul_pos hpos (by exact_mod_cast hstep)
  have hss : Real.sqrt (((sampleIdxs a.length step).map
        (fun i => a.getD i 0 * a.getD i 0)).sum * step)
      * Real.sqrt (((sampleIdxs a.length step).map
        (fun i => a.getD i 0 * a.getD i 0)).sum * step)
      = ((sampleIdxs a.length step).map (fun i => a.getD i 0 * a.getD i 0)).sum * step :=
    Real.mul_self_sqrt hSstep.le
  rw [if_neg (by rw [hss]; exact ne_of_gt hSstep), hss]
  exact div_self (ne_of_gt hSstep)

theorem getD_replicate_zero (m k : ℕ) : (List.replicate m (0 : ℝ)).getD k 0 = 0 := by
  rw [List.getD_eq_getElem?_getD]
  by_cases h : k < m
  · simp [List.getElem?_replicate, h]
  · simp [List.getElem?_replicate, h]

theorem oddOnlyVec_length : oddOnlyVec.length = 502 := by
  simp only [oddOnlyVec, List.length_cons, List.length_replicate]

set_option maxRecDepth 4000 in
theorem cosineSimilarity_oddOnlyVec : cosineSimilarity oddOnlyVec oddOnlyVec = 0 := by
  rw [cosineSimilarity_eq_cosAux rfl]
  unfold cosAux
  dsimp only
  have hzero : ∀ x ∈ (sampleIdxs oddOnlyVec.length (if 500 < oddOnlyVec.length then 2 else 1)).map
      (fun i => oddOnlyVec.getD i 0 * oddOnlyVec.getD i 0), x = 0 := by
    intro x hxm
    obtain ⟨j, hj, rfl⟩ := List.mem_map.mp hxm
    rw [oddOnlyVec_length, if_pos (by norm_num)] at hj
    unfold sampleIdxs at hj
    have hj2 : j % 2 = 0 := by simpa using (List.mem_filter.mp hj).2
    have hzero : oddOnlyVec.getD j 0 = 0 := by
      match j, hj2 with
      | 0, _ => rw [oddOnlyVec, List.getD_cons_zero]
      | Nat.succ 0, h => simp at h
      | Nat.succ (Nat.succ k), _ =>
        rw [oddOnlyVec, List.getD_cons_succ, List.getD_cons_succ]
        exact getD_replicate_zero 500 k
    rw [hzero, mul_zero]
  have hsum : ((sampleIdxs oddOnlyVec.length (if 500 < oddOnlyVec.length then 2 else 1)).map
      (fun i => oddOnlyVec.getD i 0 * oddOnlyVec.getD i 0)).sum = 0 :=
    List.sum_eq_zero hzero
  rw [hsum]
  norm_num

/-- **C2 counterexample.** The claim "`cosineSimilarity(a, a) = 1` for
every nonzero vector `a`" is false: `oddOnlyVec` is nonzero (entry `1` at
index `1`) but has length `502 > 500`, so the implementation samples only
even indices, finds zero norm, and returns `0`, not `1`. -/
theorem cosineSimilarity_self_not_one :
    ¬ (∀ a : List ℝ, (∃ x ∈ a, x ≠ 0) → cosineSimilarity a a = 1) := by
  intro hclaim
  have h1 : (1 : ℝ) ∈ oddOnlyVec := by
    rw [oddOnlyVec]
    exact List.mem_cons_of_mem _ (List.mem_cons_self _ _)
  have h := hclaim oddOnlyVec ⟨1, h1, one_ne_zero⟩
  rw [cosineSimilarity_oddOnlyVec] at h
  exact zero_ne_one h

/-- **C2 (amended).** `cosineSimilarity` is symmetric for all vector
pairs.  `cosineSimilarity(a, a) = 1` holds for every vector with a nonzero
entry at a *sampled* index (every index when the length is at most 500,
the even indices otherwise); in particular it holds for every nonzero
vector of length at most 500.  (For longer vectors supported only on odd
indices the value is `0`; see the counterexample.) -/
theorem cosineSimilarity_symm_and_self :
    (∀ a b : List ℝ, cosineSimilarity a b = cosineSimilarity b a) ∧
    (∀ a : List ℝ,
      (∃ i ∈ sampleIdxs a.length (if 500 < a.length then 2 else 1), a.getD i 0 ≠ 0) →
      cosineSimilarity a a = 1) ∧
    (∀ a : List ℝ, a.length ≤ 500 → (∃ x ∈ a, x ≠ 0) → cosineSimilarity a a = 1) := by
  have hself : ∀ a : List ℝ,
      (∃ i ∈ sampleIdxs a.length (if 500 < a.length then 2 else 1), a.getD i 0 ≠ 0) →
      cosineSimilarity a a = 1 := by
    intro a hx
    rw [cosineSimilarity_eq_cosAux rfl]
    exact cosAux_self (by split <;> norm_num) hx
  refine ⟨?_, hself, ?_⟩
  · intro a b
    by_cases h : a.length = b.length
    · rw [cosineSimilarity_eq_cosAux h, cosineSimilarity_eq_cosAux h.symm, ← h]
      exact cosAux_comm h _
    · unfold cosineSimilarity
      rw [if_pos h, if_pos (Ne.symm h)]
  · intro a hlen hx
    refine hself a ?_
    obtain ⟨x, hxa, hne⟩ := hx
    obtain ⟨i, hi, hgx⟩ := List.mem_iff_getElem.mp hxa
    refine ⟨i, ?_, ?_⟩
    · rw [if_neg (by omega)]
      unfold sampleIdxs
      exact List.mem_filter.mpr ⟨List.mem_range.mpr hi, by simp [Nat.mod_one]⟩
    · rw [List.getD_eq_getElem?_getD, List.getElem?_eq_getElem hi]
      simpa [hgx] using hne

theorem cosineSimilarity_symm_and_self_witness :
    cosineSimilarity [1, 2] [3, 4] = cosineSimilarity [3, 4] [1, 2] ∧
    cosineSimilarity [(1 : ℝ)] [1] = 1 := by
  have h := cosineSimilarity_symm_and_self
  exact ⟨h.1 [1, 2] [3, 4],
    h.2.2 [1] (by norm_num) ⟨1, List.mem_singleton_self 1, one_ne_zero⟩⟩

theorem windowIndices_not_mem (n i : ℕ) : i ∉ windowIndices n i := by
  unfold windowIndices
  intro h
  have := (List.mem_filter.mp h).2
  simp at this

/-- **C9 (amended).** The sample set never contains the current index, and
random indices are only added while the set is below `sampleSize` — so its
size is bounded by `max sampleSize |window|`.  (The window itself can
exceed `sampleSize`; see the counterexample.) -/
theorem getSampleIndices_spec (n i ss : ℕ) (rand : ℕ → ℕ) :
    i ∉ getSampleIndices n i ss rand ∧
    (getSampleIndices n i ss rand).length ≤ max ss (windowIndices n i).length := by
  unfold getSampleIndices
  have aux : ∀ (ks : List ℕ) (acc : List ℕ), i ∉ acc →
      acc.length ≤ max ss (windowIndices n i).length →
      i ∉ ks.foldl (fun acc k =>
          if acc.length < ss then
            if rand k ≠ i ∧ rand k ∉ acc then acc ++ [rand k] else acc
          else acc) acc ∧
      (ks.foldl (fun acc k =>
          if acc.length < ss then
            if rand k ≠ i ∧ rand k ∉ acc then acc ++ [rand k] else acc
          else acc) acc).length ≤ max ss (windowIndices n i).length := by
    intro ks
    induction ks with
    | nil => intro acc h1 h2; exact ⟨h1, h2⟩
    | cons k ks ih =>
      intro acc h1 h2
      simp only [List.foldl_cons]
      by_cases hlen : acc.length < ss
      · rw [if_pos hlen]
        by_cases hcond : rand k ≠ i ∧ rand k ∉ acc
        · rw [if_pos hcond]
          refine ih _ ?_ ?_
          · intro hmem
            rcases List.mem_append.mp hmem with h | h
            · exact h1 h
            · exact hcond.1 (List.mem_singleton.mp h).symm
          · rw [List.length_append, List.length_singleton]
            have := le_max_left ss (windowIndices n i).length
            omega
        · rw [if_neg hcond]; exact ih acc h1 h2
      · rw [if_neg hlen]; exact ih acc h1 h2
  exact aux _ _ (windowIndices_not_mem n i) (le_max_right _ _)

/-- **C9 counterexample.** For 41 subjects the sample-size tier is 30, but
for subject 20 the symmetric window alone already holds 39 candidates
(`randomCount` is negative in JS, so no trimming happens): the candidate
set exceeds `sampleSize`. -/
theorem getSampleIndices_exceeds_sampleSize :
    sampleSizeFor 41 = 30 ∧
    (getSampleIndices 41 20 (sampleSizeFor 41) (fun _ => 0)).length = 39 ∧
    sampleSizeFor 41 < (getSampleIndices 41 20 (sampleSizeFor 41) (fun _ => 0)).length := by
  refine ⟨by decide, by decide, by decide⟩

theorem candFold_spec (sim : ℕ → ℕ → ℚ) (thr : ℚ) (i : ℕ) (keys : List (ℕ × ℕ)) :
    ∀ (js : List ℕ) (acc : List (ℕ × ℚ)),
      (∀ c ∈ acc, c.1 ≠ i ∧ thr ≤ c.2) →
      ∀ c ∈ js.foldl (fun cand j =>
          if i = j then cand
          else if linkKey i j ∈ keys then cand
          else if thr ≤ sim i j then cand ++ [(j, sim i j)] else cand) acc,
        c.1 ≠ i ∧ thr ≤ c.2 := by
  intro js
  induction js with
  | nil => intro acc h; simpa using h
  | cons j js ih =>
    intro acc h
    simp only [List.foldl_cons]
    by_cases hij : i = j
    · rw [if_pos hij]; exact ih acc h
    · rw [if_neg hij]
      by_cases hk : linkKey i j ∈ keys
      · rw [if_pos hk]; exact ih acc h
      · rw [if_neg hk]
        by_cases hthr : thr ≤ sim i j
        · rw [if_pos hthr]
          refine ih _ ?_
          intro c hc
          rcases List.mem_append.mp hc with hc | hc
          · exact h c hc
          · rw [List.mem_singleton.mp hc]
            exact ⟨fun he => hij he.symm, hthr⟩
        · rw [if_neg hthr]; exact ih acc h

theorem pushFold_spec (thr : ℚ) (i : ℕ) :
    ∀ (tops : List (ℕ × ℚ)) (st2 : List Link × List (ℕ × ℕ)),
      (∀ c ∈ tops, c.1 ≠ i ∧ thr ≤ c.2) →
      ∃ new : List Link,
        (tops.foldl (fun st2 c =>
          if linkKey i c.1 ∈ st2.2 then st2
          else (st2.1 ++ [⟨i, c.1, c.2⟩], st2.2 ++ [linkKey i c.1])) st2)
          = (st2.1 ++ new, st2.2 ++ new.map keyOf) ∧
        new.length ≤ tops.length ∧
        (∀ l ∈ new, l.source = i ∧ l.target ≠ i ∧ thr ≤ l.similarity) ∧
        (new.map keyOf).Nodup ∧
        (∀ k ∈ new.map keyOf, k ∉ st2.2) := by
  intro tops
  induction tops with
  | nil =>
    intro st2 _
    exact ⟨[], by simp, by simp, by simp, by simp, by simp⟩
  | cons c tops ih =>
    intro st2 hc
    simp only [List.foldl_cons]
    by_cases hk : linkKey i c.1 ∈ st2.2
    · rw [if_pos hk]
      obtain ⟨new, h1, h2, h3, h4, h5⟩ := ih st2 (fun d hd => hc d (List.mem_cons_of_mem _ hd))
      exact ⟨new, h1, Nat.le_succ_of_le h2, h3, h4, h5⟩
    · rw [if_neg hk]
      obtain ⟨new, h1, h2, h3, h4, h5⟩ :=
        ih (st2.1 ++ [⟨i, c.1, c.2⟩], st2.2 ++ [linkKey i c.1])
          (fun d hd => hc d (List.mem_cons_of_mem _ hd))
      have hkey : keyOf ⟨i, c.1, c.2⟩ = linkKey i c.1 := rfl
      refine ⟨⟨i, c.1, c.2⟩ :: new, ?_, by simpa using Nat.succ_le_succ h2, ?_, ?_, ?_⟩
      · rw [h1, List.map_cons, hkey]
        rw [List.append_cons st2.1 (⟨i, c.1, c.2⟩ : Link) new,
          List.append_cons st2.2 (linkKey i c.1) (new.map keyOf)]
      · intro l hl
        rcases List.mem_cons.mp hl with rfl | hl
        · exact ⟨rfl, (hc c (List.mem_cons_self _ _)).1, (hc c (List.mem_cons_self _ _)).2⟩
        · exact h3 l hl
      · rw [List.map_cons]
        refine List.nodup_cons.mpr ⟨?_, h4⟩
        intro hmem
        have := h5 _ hmem
        exact this (by rw [hkey]; exact List.mem_append_right _ (List.mem_singleton_self _))
      · intro k hkm
        rw [List.map_cons] at hkm
        rcases List.mem_cons.mp hkm with rfl | hkm
        · rw [hkey]; exact hk
        · exact fun hmm => h5 k hkm (List.mem_append_left _ hmm)

theorem insertDesc_perm (c : ℕ × ℚ) (l : List (ℕ × ℚ)) :
    (insertDesc c l).Perm (c :: l) := by
  induction l with
  | nil => exact List.Perm.refl _
  | cons d ds ih =>
    unfold insertDesc
    by_cases h : c.2 < d.2
    · rw [if_pos h]
      exact ((ih.cons d).trans (List.Perm.swap c d ds))
    · rw [if_neg h]

theorem sortDesc_perm (l : List (ℕ × ℚ)) : (sortDesc l).Perm l := by
  induction l with
  | nil => exact List.Perm.refl _
  | cons c cs ih =>
    exact (insertDesc_perm c (sortDesc cs)).trans (ih.cons c)

theorem linkStep_spec (sim : ℕ → ℕ → ℚ) (thr : ℚ) (rand : ℕ → ℕ → ℕ)
    (n ml ss : ℕ) (st : List Link × List (ℕ × ℕ)) (i : ℕ) :
    ∃ new : List Link,
      linkStep sim thr rand n ml ss st i = (st.1 ++ new, st.2 ++ new.map keyOf) ∧
      new.length ≤ ml ∧
      (∀ l ∈ new, l.source = i ∧ l.target ≠ i ∧ thr ≤ l.similarity) ∧
      (new.map keyOf).Nodup ∧
      (∀ k ∈ new.map keyOf, k ∉ st.2) := by
  unfold linkStep
  have hcand := candFold_spec sim thr i st.2 (getSampleIndices n i ss (rand i)) []
    (by intro c hc; cases hc)
  have htop : ∀ c ∈ (sortDesc ((getSampleIndices n i ss (rand i)).foldl (fun cand j =>
        if i = j then cand
        else if linkKey i j ∈ st.2 then cand
        else if thr ≤ sim i j then cand ++ [(j, sim i j)] else cand) [])).take ml,
      c.1 ≠ i ∧ thr ≤ c.2 := by
    intro c hc
    have hs := List.take_subset ml _ hc
    have hm := (sortDesc_perm _).mem_iff.mp hs
    exact hcand c hm
  obtain ⟨new, h1, h2, h3, h4, h5⟩ := pushFold_spec thr i _ st htop
  refine ⟨new, h1, le_trans h2 (List.length_take_le _ _), h3, h4, h5⟩

theorem foldl_linkStep_inv (sim : ℕ → ℕ → ℚ) (thr : ℚ) (rand : ℕ → ℕ → ℕ) (n ml ss : ℕ) :
    ∀ (idxs : List ℕ) (st : List Link × List (ℕ × ℕ)),
      st.2 = st.1.map keyOf → st.2.Nodup →
      (∀ l ∈ st.1, l.target ≠ l.source ∧ thr ≤ l.similarity) →
      (idxs.foldl (linkStep sim thr rand n ml ss) st).2
          = (idxs.foldl (linkStep sim thr rand n ml ss) st).1.map keyOf ∧
      (idxs.foldl (linkStep sim thr rand n ml ss) st).2.Nodup ∧
      (∀ l ∈ (idxs.foldl (linkStep sim thr rand n ml ss) st).1,
        l.target ≠ l.source ∧ thr ≤ l.similarity) := by
  intro idxs
  induction idxs with
  | nil => intro st h1 h2 h3; exact ⟨h1, h2, h3⟩
  | cons i idxs ih =>
    intro st h1 h2 h3
    simp only [List.foldl_cons]
    obtain ⟨new, he, _, hprops, hnodup, hfresh⟩ := linkStep_spec sim thr rand n ml ss st i
    rw [he]
    apply ih
    · show st.2 ++ new.map keyOf = (st.1 ++ new).map keyOf
      rw [List.map_append, h1]
    · exact List.Nodup.append h2 hnodup (fun a ha hb => hfresh a hb ha)
    · intro l hl
      rcases List.mem_append.mp hl with hl | hl
      · exact h3 l hl
      · obtain ⟨hsrc, htgt, hthr⟩ := hprops l hl
        exact ⟨by rw [hsrc]; exact htgt, hthr⟩

theorem countSrc_append (j : ℕ) (L1 L2 : List Link) :
    countSrc j (L1 ++ L2) = countSrc j L1 + countSrc j L2 := by
  unfold countSrc
  rw [List.filter_append, List.length_append]

theorem foldl_linkStep_countSrc (sim : ℕ → ℕ → ℚ) (thr : ℚ) (rand : ℕ → ℕ → ℕ)
    (n ml ss : ℕ) :
    ∀ (idxs : List ℕ) (st : List Link × List (ℕ × ℕ)) (j : ℕ),
      idxs.Nodup →
      (j ∈ idxs → countSrc j st.1 = 0) →
      countSrc j st.1 ≤ ml →
      countSrc j (idxs.foldl (linkStep sim thr rand n ml ss) st).1 ≤ ml := by
  intro idxs
  induction idxs with
  | nil => intro st j _ _ h; simpa using h
  | cons i idxs ih =>
    intro st j hnd hzero hle
    simp only [List.foldl_cons]
    obtain ⟨new, he, hlen, hprops, _, _⟩ := linkStep_spec sim thr rand n ml ss st i
    rw [he]
    by_cases hji : j = i
    · subst hji
      have hz : countSrc j st.1 = 0 := hzero (List.mem_cons_self _ _)
      have hnew : countSrc j new ≤ ml :=
        le_trans (List.length_filter_le _ _) hlen
      refine ih _ j (List.nodup_cons.mp hnd).2 ?_ ?_
      · intro hj; exact absurd hj (List.nodup_cons.mp hnd).1
      · rw [countSrc_append, hz, zero_add]; exact hnew
    · have hnewz : countSrc j new = 0 := by
        unfold countSrc
        rw [List.filter_eq_nil_iff.mpr ?_]
        · rfl
        · intro l hl
          have := (hprops l hl).1
          simp [this, hji, Ne.symm hji]
      refine ih _ j (List.nodup_cons.mp hnd).2 ?_ ?_
      · intro hj
        rw [countSrc_append, hnewz, add_zero]
        exact hzero (List.mem_cons_of_mem _ hj)
      · rw [countSrc_append, hnewz, add_zero]; exact hle

/-- **C3 (amended).** Each subject `j` is the *source* of at most
`maxLinksPerNode n` retained edges — it gains at most that many edges
during its own iteration of the node loop, and every edge pushed in
iteration `j` has source `j`.  (The total number of edges *incident* to a
subject can exceed the cap, because other subjects may also pick it as a
target; see the counterexample.)  The tiers are `min(10, n-1)` for
`n ≤ 20`, `8` for `n ≤ 50`, `5` otherwise. -/
theorem generateLinks_source_cap (n : ℕ) (sim : ℕ → ℕ → ℚ) (threshold : ℚ)
    (rand : ℕ → ℕ → ℕ) (j : ℕ) :
    countSrc j (generateLinksOptimized n sim threshold rand) ≤ maxLinksPerNode n := by
  unfold generateLinksOptimized
  exact foldl_linkStep_countSrc sim threshold rand n (maxLinksPerNode n) (sampleSizeFor n)
    (List.range n) ([], []) j (List.nodup_range n) (fun _ => rfl) (Nat.zero_le _)

section
/- `Rat.add/mul/inv/sub/ofScientific` are `@[irreducible]` only to keep
elaboration from unfolding them accidentally; the kernel ignores
reducibility, and the concrete link-builder runs below are evaluated by
`decide`, so they are made semireducible locally. -/
set_option allowUnsafeReducibility true
set_option maxRecDepth 100000
attribute [local semireducible] Rat.add Rat.mul Rat.inv Rat.sub Rat.ofScientific

/-- **C3 counterexample.** With 12 subjects the cap is
`min(10, 11) = 10`, yet in the hub configuration `simHub` (realizable by
exact rational-cosine unit vectors, threshold `0.9`) subject `0` ends up
incident to 11 retained edges: its own iteration keeps the top 10 hub
edges, and subject 11 — whose hub edge was dropped there — adds edge
`11→0` during its own iteration. -/
theorem generateLinks_degree_exceeds_cap :
    maxLinksPerNode 12 = 10 ∧
    ((generateLinksOptimized 12 simHub (9/10) (fun _ _ => 0)).filter
      (fun l => l.source = 0 ∨ l.target = 0)).length = 11 ∧
    maxLinksPerNode 12 <
      ((generateLinksOptimized 12 simHub (9/10) (fun _ _ => 0)).filter
        (fun l => l.source = 0 ∨ l.target = 0)).length := by
  refine ⟨by decide, by decide, by decide⟩

/-- **C4.** Every unordered pair of subjects appears in at most one edge —
the canonical unordered pair keys of the returned edge list are pairwise
distinct — and every retained edge's similarity is at least the configured
threshold. -/
theorem generateLinks_dedup_and_threshold (n : ℕ) (sim : ℕ → ℕ → ℚ) (threshold : ℚ)
    (rand : ℕ → ℕ → ℕ) :
    ((generateLinksOptimized n sim threshold rand).map keyOf).Nodup ∧
    (∀ l ∈ generateLinksOptimized n sim threshold rand, threshold ≤ l.similarity) := by
  unfold generateLinksOptimized
  obtain ⟨h1, h2, h3⟩ := foldl_linkStep_inv sim threshold rand n (maxLinksPerNode n)
    (sampleSizeFor n) (List.range n) ([], []) rfl List.nodup_nil (by intro l hl; cases hl)
  rw [h1] at h2
  exact ⟨h2, fun l hl => (h3 l hl).2⟩

theorem generateLinks_dedup_and_threshold_witness :
    ((generateLinksOptimized 2 (fun _ _ => 1) 0 (fun _ _ => 0)).map keyOf).Nodup ∧
    (0 : ℚ) ≤ (Link.mk 0 1 1).similarity := by
  have h := generateLinks_dedup_and_threshold 2 (fun _ _ => 1) 0 (fun _ _ => 0)
  exact ⟨h.1, h.2 ⟨0, 1, 1⟩ (by decide)⟩

/-- **C10.** No returned edge is a self-loop: candidate enumeration skips
`j = i`, so every edge's source differs from its target. -/
theorem generateLinks_no_self_loops (n : ℕ) (sim : ℕ → ℕ → ℚ) (threshold : ℚ)
    (rand : ℕ → ℕ → ℕ) :
    ∀ l ∈ generateLinksOptimized n sim threshold rand, l.source ≠ l.target := by
  unfold generateLinksOptimized
  obtain ⟨_, _, h3⟩ := foldl_linkStep_inv sim threshold rand n (maxLinksPerNode n)
    (sampleSizeFor n) (List.range n) ([], []) rfl List.nodup_nil (by intro l hl; cases hl)
  exact fun l hl => ((h3 l hl).1).symm

theorem generateLinks_no_self_loops_witness :
    (Link.mk 0 1 1).source ≠ (Link.mk 0 1 1).target :=
  generateLinks_no_self_loops 2 (fun _ _ => 1) 0 (fun _ _ => 0) ⟨0, 1, 1⟩ (by decide)

end

theorem scanLinks_spec (links : List Link) (thr : ℚ) (n c : ℕ) :
    ∀ st : List ℕ × List ℕ × List ℕ,
      ∃ δ : List ℕ,
        scanLinks links thr n c st = (st.1 ++ δ, st.2.1 ++ δ, st.2.2 ++ δ) ∧
        δ.Nodup ∧ (∀ x ∈ δ, x ∉ st.1) := by
  unfold scanLinks
  induction links with
  | nil =>
    intro st
    refine ⟨[], ?_, List.nodup_nil, by intro x hx; cases hx⟩
    rw [List.foldl_nil, List.append_nil, List.append_nil, List.append_nil]
  | cons link ls ih =>
    intro st
    simp only [List.foldl_cons]
    cases hnb : neighborOf link c with
    | none =>
      simp only [hnb]
      exact ih st
    | some nb =>
      simp only [hnb]
      by_cases hcond : nb < n ∧ nb ∉ st.1 ∧ thr ≤ link.similarity
      · rw [if_pos hcond]
        obtain ⟨δ, h1, h2, h3⟩ := ih (st.1 ++ [nb], st.2.1 ++ [nb], st.2.2 ++ [nb])
        refine ⟨nb :: δ, ?_, ?_, ?_⟩
        · rw [h1, List.append_assoc, List.append_assoc, List.append_assoc]
          rfl
        · refine List.nodup_cons.mpr ⟨?_, h2⟩
          intro hmem
          exact h3 nb hmem (List.mem_append_right _ (List.mem_singleton_self _))
        · intro x hx
          rcases List.mem_cons.mp hx with rfl | hx
          · exact hcond.2.1
          · exact fun hv => h3 x hx (List.mem_append_left _ hv)
      · rw [if_neg hcond]
        exact ih st

theorem bfsClusters_spec (links : List Link) (thr : ℚ) (n : ℕ) :
    ∀ (fuel : ℕ) (v cl q v₀ : List ℕ),
      cl.Nodup → (∀ x ∈ cl, x ∈ v) → (∀ x ∈ cl, x ∉ v₀) → (∀ x ∈ v₀, x ∈ v) →
      (bfsClusters links thr n fuel (v, cl, q)).2.Nodup ∧
      (∀ x ∈ (bfsClusters links thr n fuel (v, cl, q)).2,
        x ∈ (bfsClusters links thr n fuel (v, cl, q)).1) ∧
      (∀ x ∈ (bfsClusters links thr n fuel (v, cl, q)).2, x ∉ v₀) ∧
      (∀ x ∈ v₀, x ∈ (bfsClusters links thr n fuel (v, cl, q)).1) := by
  intro fuel
  induction fuel with
  | zero =>
    intro v cl q v₀ h1 h2 h3 h4
    exact ⟨h1, h2, h3, h4⟩
  | succ fuel ih =>
    intro v cl q v₀ h1 h2 h3 h4
    match q with
    | [] =>
      unfold bfsClusters
      exact ⟨h1, h2, h3, h4⟩
    | c :: rest =>
      obtain ⟨δ, he, hδnd, hδfresh⟩ := scanLinks_spec links thr n c (v, cl, rest)
      unfold bfsClusters
      dsimp only
      rw [he]
      refine ih (v ++ δ) (cl ++ δ) (rest ++ δ) v₀ ?_ ?_ ?_ ?_
      · refine List.Nodup.append h1 hδnd ?_
        intro a ha hb
        exact hδfresh a hb (h2 a ha)
      · intro x hx
        rcases List.mem_append.mp hx with hx | hx
        · exact List.mem_append_left _ (h2 x hx)
        · exact List.mem_append_right _ hx
      · intro x hx
        rcases List.mem_append.mp hx with hx | hx
        · exact h3 x hx
        · exact fun hv => hδfresh x hx (h4 x hv)
      · intro x hx
        exact List.mem_append_left _ (h4 x hx)

theorem detectFold_inv (links : List Link) (thr : ℚ) (n : ℕ) :
    ∀ (idxs : List ℕ) (st : List ℕ × List (List ℕ)),
      (∀ c ∈ st.2, 2 ≤ c.length) →
      List.Pairwise (fun c₁ c₂ => ∀ x ∈ c₁, x ∉ c₂) st.2 →
      (∀ c ∈ st.2, ∀ x ∈ c, x ∈ st.1) →
      (∀ c ∈ (idxs.foldl (fun st idx =>
          if idx ∈ st.1 then st
          else
            let r := bfsClusters links thr n n (st.1 ++ [idx], [idx], [idx])
            (r.1, if 2 ≤ r.2.length then st.2 ++ [r.2] else st.2)) st).2, 2 ≤ c.length) ∧
      List.Pairwise (fun c₁ c₂ => ∀ x ∈ c₁, x ∉ c₂)
        (idxs.foldl (fun st idx =>
          if idx ∈ st.1 then st
          else
            let r := bfsClusters links thr n n (st.1 ++ [idx], [idx], [idx])
            (r.1, if 2 ≤ r.2.length then st.2 ++ [r.2] else st.2)) st).2 ∧
      (∀ c ∈ (idxs.foldl (fun st idx =>
          if idx ∈ st.1 then st
          else
            let r := bfsClusters links thr n n (st.1 ++ [idx], [idx], [idx])
            (r.1, if 2 ≤ r.2.length then st.2 ++ [r.2] else st.2)) st).2, ∀ x ∈ c,
        x ∈ (idxs.foldl (fun st idx =>
          if idx ∈ st.1 then st
          else
            let r := bfsClusters links thr n n (st.1 ++ [idx], [idx], [idx])
            (r.1, if 2 ≤ r.2.length then st.2 ++ [r.2] else st.2)) st).1) := by
  intro idxs
  induction idxs with
  | nil =>
    intro st h1 h2 h3
    exact ⟨h1, h2, h3⟩
  | cons idx idxs ih =>
    intro st h1 h2 h3
    simp only [List.foldl_cons]
    by_cases hmem : idx ∈ st.1
    · rw [if_pos hmem]
      exact ih st h1 h2 h3
    · rw [if_neg hmem]
      obtain ⟨hnd, hsub, hfresh, hmono⟩ := bfsClusters_spec links thr n n
        (st.1 ++ [idx]) [idx] [idx] st.1
        (List.nodup_singleton idx)
        (by intro x hx; rw [List.mem_singleton.mp hx]
            exact List.mem_append_right _ (List.mem_singleton_self _))
        (by intro x hx; rw [List.mem_singleton.mp hx]; exact hmem)
        (fun x hx => List.mem_append_left _ hx)
      by_cases hlen : 2 ≤ (bfsClusters links thr n n (st.1 ++ [idx], [idx], [idx])).2.length
      · rw [if_pos hlen]
        refine ih _ ?_ ?_ ?_
        · intro c hc
          rcases List.mem_append.mp hc with hc | hc
          · exact h1 c hc
          · rw [List.mem_singleton.mp hc]; exact hlen
        · rw [List.pairwise_append]
          refine ⟨h2, List.pairwise_singleton _ _, ?_⟩
          intro c₁ hc₁ c₂ hc₂ x hx
          rw [List.mem_singleton.mp hc₂]
          intro hxin
          exact hfresh x hxin (h3 c₁ hc₁ x hx)
        · intro c hc x hx
          rcases List.mem_append.mp hc with hc | hc
          · exact hmono x (h3 c hc x hx)
          · rw [List.mem_singleton.mp hc] at hx
            exact hsub x hx
      · rw [if_neg hlen]
        refine ih _ h1 h2 ?_
        intro c hc x hx
        exact hmono x (h3 c hc x hx)

section
set_option allowUnsafeReducibility true
set_option maxRecDepth 100000
attribute [local semireducible] Rat.add Rat.mul Rat.inv Rat.sub Rat.ofScientific

/-- **C5.** `ClusterFusion.detectClusters` returns only clusters with at
least 2 members; no subject appears in two different clusters of the same
call (distinct returned clusters are disjoint — and each cluster is itself
duplicate-free, a byproduct of the visited-set discipline); and for three
subjects pairwise connected with similarity `1` at threshold `0.95` it
returns exactly one cluster holding all three. -/
theorem detectClusters_spec (n : ℕ) (links : List Link) (thr : ℚ) :
    (∀ c ∈ detectClusters n links thr, 2 ≤ c.length) ∧
    List.Pairwise (fun c₁ c₂ => ∀ x ∈ c₁, x ∉ c₂) (detectClusters n links thr) ∧
    (∀ c ∈ detectClusters n links thr, c.Nodup) ∧
    detectClusters 3 triangleLinks (95/100) = [[0, 1, 2]] := by
  have hinv := detectFold_inv links thr n (List.range n) ([], [])
    (by intro c hc; cases hc) List.Pairwise.nil (by intro c hc; cases hc)
  refine ⟨hinv.1, hinv.2.1, ?_, by decide⟩
  -- Nodup of each cluster needs its own pass through the same fold.
  have haux : ∀ (idxs : List ℕ) (st : List ℕ × List (List ℕ)),
      (∀ c ∈ st.2, c.Nodup) →
      ∀ c ∈ (idxs.foldl (fun st idx =>
          if idx ∈ st.1 then st
          else
            let r := bfsClusters links thr n n (st.1 ++ [idx], [idx], [idx])
            (r.1, if 2 ≤ r.2.length then st.2 ++ [r.2] else st.2)) st).2, c.Nodup := by
    intro idxs
    induction idxs with
    | nil => intro st h c hc; exact h c hc
    | cons idx idxs ih =>
      intro st h
      simp only [List.foldl_cons]
      by_cases hmem : idx ∈ st.1
      · rw [if_pos hmem]; exact ih st h
      · rw [if_neg hmem]
        obtain ⟨hnd, _, _, _⟩ := bfsClusters_spec links thr n n
          (st.1 ++ [idx]) [idx] [idx] st.1
          (List.nodup_singleton idx)
          (by intro x hx; rw [List.mem_singleton.mp hx]
              exact List.mem_append_right _ (List.mem_singleton_self _))
          (by intro x hx; rw [List.mem_singleton.mp hx]; exact hmem)
          (fun x hx => List.mem_append_left _ hx)
        by_cases hlen : 2 ≤ (bfsClusters links thr n n (st.1 ++ [idx], [idx], [idx])).2.length
        · rw [if_pos hlen]
          refine ih _ ?_
          intro c hc
          rcases List.mem_append.mp hc with hc | hc
          · exact h c hc
          · rw [List.mem_singleton.mp hc]; exact hnd
        · rw [if_neg hlen]
          exact ih _ h
  exact haux (List.range n) ([], []) (by intro c hc; cases hc)

theorem detectClusters_spec_witness :
    2 ≤ ([0, 1, 2] : List ℕ).length ∧
    detectClusters 3 triangleLinks (95/100) = [[0, 1, 2]] := by
  have h := detectClusters_spec 3 triangleLinks (95/100)
  exact ⟨h.1 [0, 1, 2] (by rw [h.2.2.2]; exact List.mem_singleton_self _), h.2.2.2⟩

end

/-- **C8 counterexample.** Not every lexical-indicator analyzer falls back
to score `0.5` on zero indicator hits: `analyzeTemporalOrientation` on the
nonempty text `"zzz"` (which contains no temporal indicator) returns the
category `mixed` with score `0.33`. -/
theorem analyzeTemporalOrientation_zero_hits_score :
    analyzeTemporalOrientation ("zzz".toList) = ⟨"mixed", 0.33, none⟩ ∧
    (0.33 : ℝ) ≠ 0.5 := by
  constructor
  · unfold analyzeTemporalOrientation
    rw [if_neg (by decide)]
    dsimp only
    have htot : sumCountWB pastIndicators (lowered "zzz".toList)
        + sumCountWB presentIndicators (lowered "zzz".toList)
        + sumCountWB futureIndicators (lowered "zzz".toList) = 0 := by decide
    rw [if_pos htot]
  · norm_num

/-- **C8 (amended).** `extractSubjectivity` never fails on empty text:
`extract("", [], {})` returns the default profile — narrative style
`conversational` with score `0.5`, and every other analyzer at its
fallback (`uniqueness` evaluates to `0.35`).  Every lexical-indicator
analyzer with zero total indicator hits on a nonempty text returns its
fixed fallback category; the fallback score is `0.5` for the narrative
style, authenticity and expression-mode analyzers, but `0.33` for the
temporal-orientation analyzer. -/
theorem extract_fallbacks :
    extractSubjectivity [] [] [] = defaultProfile ∧
    (∀ text : List Char, text ≠ [] →
      sumCountOccs directIndicators (lowered text)
          + sumCountOccs reflectiveIndicators (lowered text)
          + sumCountOccs metaphoricalIndicators (lowered text)
          + sumCountOccs conversationalIndicators (lowered text) = 0 →
      analyzeNarrativeStyle text = ⟨"conversational", 0.5, none⟩) ∧
    (∀ text : List Char, text ≠ [] →
      sumCountWB pastIndicators (lowered text) + sumCountWB presentIndicators (lowered text)
          + sumCountWB futureIndicators (lowered text) = 0 →
      analyzeTemporalOrientation text = ⟨"mixed", 0.33, none⟩) ∧
    (∀ text : List Char, text ≠ [] →
      sumCountWB formalIndicators (lowered text) + sumCountWB casualIndicators (lowered text)
          + sumCountOccs intimateIndicators (lowered text) = 0 →
      analyzeAuthenticity text = ⟨"casual", 0.5, none⟩) ∧
    (∀ text : List Char, text ≠ [] →
      sumCountOccs directModeIndicators (lowered text)
          + sumCountWB indirectModeIndicators (lowered text) = 0 →
      analyzeExpressionMode text = ⟨"direct", 0.5⟩) := by
  refine ⟨?_, ?_, ?_, ?_, ?_⟩
  · unfold extractSubjectivity defaultProfile
    have h1 : analyzeNarrativeStyle [] = ⟨"conversational", 0.5, none⟩ := by
      unfold analyzeNarrativeStyle; rw [if_pos rfl]
    have h2 : analyzeEmotionalExpression [] [] = ⟨"moderate", 0.5⟩ := by
      unfold analyzeEmotionalExpression; rw [if_pos rfl]
    have h3 : analyzeTemporalOrientation [] = ⟨"mixed", 0.33, none⟩ := by
      unfold analyzeTemporalOrientation; rw [if_pos rfl]
    have h4 : analyzeSelfReference [] = ⟨"medium", 0.5⟩ := by
      unfold analyzeSelfReference; rw [if_pos rfl]
    have h5 : analyzeComplexity [] [] = ⟨"moderate", 0.5⟩ := by
      unfold analyzeComplexity; rw [if_pos rfl]
    have h6 : analyzeAuthenticity [] = ⟨"casual", 0.5, none⟩ := by
      unfold analyzeAuthenticity; rw [if_pos rfl]
    have h7 : analyzeRhythm [] = 0.5 := by
      unfold analyzeRhythm; rw [if_pos rfl]
    have h8 : analyzeReflectionDepth [] = 0.5 := by
      unfold analyzeReflectionDepth; rw [if_pos rfl]
    have h9 : analyzeExpressionMode [] = ⟨"direct", 0.5⟩ := by
      unfold analyzeExpressionMode; rw [if_pos rfl]
    have h10 : calculateUniqueness [] [] [] = 0.35 := by
      unfold calculateUniqueness lowered
      dsimp only
      norm_num [runs, runsF, List.dedup_nil]
    rw [h1, h2, h3, h4, h5, h6, h7, h8, h9, h10]
  · intro text htext htot
    unfold analyzeNarrativeStyle
    rw [if_neg htext]
    dsimp only
    rw [if_pos htot]
  · intro text htext htot
    unfold analyzeTemporalOrientation
    rw [if_neg htext]
    dsimp only
    rw [if_pos htot]
  · intro text htext htot
    unfold analyzeAuthenticity
    rw [if_neg htext]
    dsimp only
    rw [if_pos htot]
  · intro text htext htot
    unfold analyzeExpressionMode
    rw [if_neg htext]
    dsimp only
    rw [if_pos htot]

theorem extract_fallbacks_witness :
    extractSubjectivity [] [] [] = defaultProfile ∧
    analyzeNarrativeStyle ("q".toList) = ⟨"conversational", 0.5, none⟩ ∧
    analyzeTemporalOrientation ("q".toList) = ⟨"mixed", 0.33, none⟩ ∧
    analyzeAuthenticity ("q".toList) = ⟨"casual", 0.5, none⟩ ∧
    analyzeExpressionMode ("q".toList) = ⟨"direct", 0.5⟩ := by
  have h := extract_fallbacks
  exact ⟨h.1, h.2.1 _ (by decide) (by decide), h.2.2.1 _ (by decide) (by decide),
    h.2.2.2.1 _ (by decide) (by decide), h.2.2.2.2 _ (by decide) (by decide)⟩

theorem hubVec_length (k : ℕ) : (hubVec k).length = 12 := by
  simp [hubVec]

theorem hubVec_getD (k m : ℕ) (h : m < 12) : (hubVec k).getD m 0 = hubEntry k m := by
  unfold hubVec
  exact getD_map_range _ _ h

theorem hub_sum_expand (k l : ℕ) :
    ((sampleIdxs 12 1).map (fun m => (hubVec k).getD m 0 * (hubVec l).getD m 0)).sum
      = hubEntry k 0 * hubEntry l 0 + hubEntry k 1 * hubEntry l 1 + hubEntry k 2 * hubEntry l 2
      + hubEntry k 3 * hubEntry l 3 + hubEntry k 4 * hubEntry l 4 + hubEntry k 5 * hubEntry l 5
      + hubEntry k 6 * hubEntry l 6 + hubEntry k 7 * hubEntry l 7 + hubEntry k 8 * hubEntry l 8
      + hubEntry k 9 * hubEntry l 9 + hubEntry k 10 * hubEntry l 10
      + hubEntry k 11 * hubEntry l 11 := by
  have hidx : sampleIdxs 12 1 = [0, 1, 2, 3, 4, 5, 6, 7, 8, 9, 10, 11] := by decide
  rw [hidx]
  simp only [List.map_cons, List.map_nil, List.sum_cons, List.sum_nil]
  rw [hubVec_getD k 0 (by norm_num), hubVec_getD l 0 (by norm_num),
    hubVec_getD k 1 (by norm_num), hubVec_getD l 1 (by norm_num),
    hubVec_getD k 2 (by norm_num), hubVec_getD l 2 (by norm_num),
    hubVec_getD k 3 (by norm_num), hubVec_getD l 3 (by norm_num),
    hubVec_getD k 4 (by norm_num), hubVec_getD l 4 (by norm_num),
    hubVec_getD k 5 (by norm_num), hubVec_getD l 5 (by norm_num),
    hubVec_getD k 6 (by norm_num), hubVec_getD l 6 (by norm_num),
    hubVec_getD k 7 (by norm_num), hubVec_getD l 7 (by norm_num),
    hubVec_getD k 8 (by norm_num), hubVec_getD l 8 (by norm_num),
    hubVec_getD k 9 (by norm_num), hubVec_getD l 9 (by norm_num),
    hubVec_getD k 10 (by norm_num), hubVec_getD l 10 (by norm_num),
    hubVec_getD k 11 (by norm_num), hubVec_getD l 11 (by norm_num)]
  ring

theorem hubEntry_zero_left {m : ℕ} (hm : m ≠ 0) : hubEntry 0 m = 0 := by
  unfold hubEntry
  rw [if_pos rfl, if_neg hm]

theorem hubEntry_zero_zero : hubEntry 0 0 = 1 := by
  unfold hubEntry
  rw [if_pos rfl, if_pos rfl]

theorem hubEntry_at_zero {k : ℕ} (hk : k ≠ 0) : hubEntry k 0 = ((aHub k : ℚ) : ℝ) := by
  unfold hubEntry
  rw [if_neg hk, if_pos rfl]

theorem hubEntry_self {k : ℕ} (hk : k ≠ 0) : hubEntry k k = ((bHub k : ℚ) : ℝ) := by
  unfold hubEntry
  rw [if_neg hk, if_neg hk, if_pos rfl]

theorem hubEntry_other {k m : ℕ} (hk : k ≠ 0) (hm : m ≠ 0) (hkm : m ≠ k) : hubEntry k m = 0 := by
  unfold hubEntry
  rw [if_neg hk, if_neg hm, if_neg hkm]

theorem hubEntry_cross {s t m : ℕ} (hs : s ≠ 0) (ht : t ≠ 0) (hst : s ≠ t) (hm : m ≠ 0) :
    hubEntry s m * hubEntry t m = 0 := by
  by_cases hms : m = s
  · rw [hubEntry_other ht hm (by omega), mul_zero]
  · rw [hubEntry_other hs hm hms, zero_mul]

theorem aHub_sq_add_bHub_sq (k : ℕ) : aHub k ^ 2 + bHub k ^ 2 = 1 := by
  unfold aHub bHub
  have h : ((40000 : ℚ) + (33 + k : ℚ) ^ 2) ≠ 0 := by positivity
  field_simp
  ring

theorem hub_dot_left_zero {t : ℕ} (ht : t ≠ 0) :
    ((sampleIdxs 12 1).map (fun m => (hubVec 0).getD m 0 * (hubVec t).getD m 0)).sum
      = ((aHub t : ℚ) : ℝ) := by
  rw [hub_sum_expand, hubEntry_zero_zero, hubEntry_at_zero ht,
    hubEntry_zero_left (show (1 : ℕ) ≠ 0 by norm_num),
    hubEntry_zero_left (show (2 : ℕ) ≠ 0 by norm_num),
    hubEntry_zero_left (show (3 : ℕ) ≠ 0 by norm_num),
    hubEntry_zero_left (show (4 : ℕ) ≠ 0 by norm_num),
    hubEntry_zero_left (show (5 : ℕ) ≠ 0 by norm_num),
    hubEntry_zero_left (show (6 : ℕ) ≠ 0 by norm_num),
    hubEntry_zero_left (show (7 : ℕ) ≠ 0 by norm_num),
    hubEntry_zero_left (show (8 : ℕ) ≠ 0 by norm_num),
    hubEntry_zero_left (show (9 : ℕ) ≠ 0 by norm_num),
    hubEntry_zero_left (show (10 : ℕ) ≠ 0 by norm_num),
    hubEntry_zero_left (show (11 : ℕ) ≠ 0 by norm_num)]
  ring

theorem hub_dot_right_zero {t : ℕ} (ht : t ≠ 0) :
    ((sampleIdxs 12 1).map (fun m => (hubVec t).getD m 0 * (hubVec 0).getD m 0)).sum
      = ((aHub t : ℚ) : ℝ) := by
  rw [hub_sum_expand, hubEntry_zero_zero, hubEntry_at_zero ht,
    hubEntry_zero_left (show (1 : ℕ) ≠ 0 by norm_num),
    hubEntry_zero_left (show (2 : ℕ) ≠ 0 by norm_num),
    hubEntry_zero_left (show (3 : ℕ) ≠ 0 by norm_num),
    hubEntry_zero_left (show (4 : ℕ) ≠ 0 by norm_num),
    hubEntry_zero_left (show (5 : ℕ) ≠ 0 by norm_num),
    hubEntry_zero_left (show (6 : ℕ) ≠ 0 by norm_num),
    hubEntry_zero_left (show (7 : ℕ) ≠ 0 by norm_num),
    hubEntry_zero_left (show (8 : ℕ) ≠ 0 by norm_num),
    hubEntry_zero_left (show (9 : ℕ) ≠ 0 by norm_num),
    hubEntry_zero_left (show (10 : ℕ) ≠ 0 by norm_num),
    hubEntry_zero_left (show (11 : ℕ) ≠ 0 by norm_num)]
  ring

theorem hub_dot_cross {s t : ℕ} (hs : s ≠ 0) (ht : t ≠ 0) (hst : s ≠ t) :
    ((sampleIdxs 12 1).map (fun m => (hubVec s).getD m 0 * (hubVec t).getD m 0)).sum
      = ((aHub s : ℚ) : ℝ) * ((aHub t : ℚ) : ℝ) := by
  rw [hub_sum_expand, hubEntry_at_zero hs, hubEntry_at_zero ht,
    hubEntry_cross hs ht hst (show (1 : ℕ) ≠ 0 by norm_num),
    hubEntry_cross hs ht hst (show (2 : ℕ) ≠ 0 by norm_num),
    hubEntry_cross hs ht hst (show (3 : ℕ) ≠ 0 by norm_num),
    hubEntry_cross hs ht hst (show (4 : ℕ) ≠ 0 by norm_num),
    hubEntry_cross hs ht hst (show (5 : ℕ) ≠ 0 by norm_num),
    hubEntry_cross hs ht hst (show (6 : ℕ) ≠ 0 by norm_num),
    hubEntry_cross hs ht hst (show (7 : ℕ) ≠ 0 by norm_num),
    hubEntry_cross hs ht hst (show (8 : ℕ) ≠ 0 by norm_num),
    hubEntry_cross hs ht hst (show (9 : ℕ) ≠ 0 by norm_num),
    hubEntry_cross hs ht hst (show (10 : ℕ) ≠ 0 by norm_num),
    hubEntry_cross hs ht hst (show (11 : ℕ) ≠ 0 by norm_num)]
  ring

theorem hub_norm (k : ℕ) (hk : k < 12) :
    ((sampleIdxs 12 1).map (fun m => (hubVec k).getD m 0 * (hubVec k).getD m 0)).sum = 1 := by
  by_cases h0 : k = 0
  · subst h0
    rw [hub_sum_expand, hubEntry_zero_zero,
      hubEntry_zero_left (show (1 : ℕ) ≠ 0 by norm_num),
      hubEntry_zero_left (show (2 : ℕ) ≠ 0 by norm_num),
      hubEntry_zero_left (show (3 : ℕ) ≠ 0 by norm_num),
      hubEntry_zero_left (show (4 : ℕ) ≠ 0 by norm_num),
      hubEntry_zero_left (show (5 : ℕ) ≠ 0 by norm_num),
      hubEntry_zero_left (show (6 : ℕ) ≠ 0 by norm_num),
      hubEntry_zero_left (show (7 : ℕ) ≠ 0 by norm_num),
      hubEntry_zero_left (show (8 : ℕ) ≠ 0 by norm_num),
      hubEntry_zero_left (show (9 : ℕ) ≠ 0 by norm_num),
      hubEntry_zero_left (show (10 : ℕ) ≠ 0 by norm_num),
      hubEntry_zero_left (show (11 : ℕ) ≠ 0 by norm_num)]
    ring
  · have hsq := congrArg (fun q : ℚ => (q : ℝ)) (aHub_sq_add_bHub_sq k)
    push_cast at hsq
    rw [hub_sum_expand]
    interval_cases k <;>
      first
        | exact absurd rfl h0
        | (norm_num [hubEntry]; linear_combination hsq)

/-- The abstract similarity matrix `simHub` of the C3 counterexample is
realized by the source's own `cosineSimilarity` on the explicit unit
vectors `hubVec`: the counterexample's inputs are reachable, not an
artifact of abstracting the similarity function. -/
theorem cosineSimilarity_hubVec_realizes_simHub (i j : ℕ) (hi : i < 12) (hj : j < 12) :
    cosineSimilarity (hubVec i) (hubVec j) = ((simHub i j : ℚ) : ℝ) := by
  rw [cosineSimilarity_eq_cosAux (by rw [hubVec_length, hubVec_length])]
  have hstep : (if 500 < (hubVec i).length then 2 else 1) = 1 := by
    rw [hubVec_length]; norm_num
  rw [hstep]
  unfold cosAux
  dsimp only
  rw [hubVec_length]
  simp only [Nat.cast_one, mul_one]
  rw [hub_norm i hi, hub_norm j hj, Real.sqrt_one, mul_one,
    if_neg (one_ne_zero), div_one]
  unfold simHub
  by_cases hij : i = j
  · subst hij
    rw [if_pos rfl]
    push_cast
    exact hub_norm i hi
  · rw [if_neg hij]
    by_cases hi0 : i = 0
    · subst hi0
      rw [if_pos rfl]
      exact hub_dot_left_zero (fun h => hij h.symm)
    · rw [if_neg hi0]
      by_cases hj0 : j = 0
      · subst hj0
        rw [if_pos rfl]
        exact hub_dot_right_zero hi0
      · rw [if_neg hj0]
        push_cast
        exact hub_dot_cross hi0 hj0 hij

theorem cosineSimilarity_hubVec_realizes_simHub_witness :
    cosineSimilarity (hubVec 0) (hubVec 11) = ((simHub 0 11 : ℚ) : ℝ) :=
  cosineSimilarity_hubVec_realizes_simHub 0 11 (by norm_num) (by norm_num)
